import Mathlib

/-!
# Sanctifier static-analysis core: a shallow embedding

This file embeds the detector algorithms of the Sanctifier static-analysis
engine (tooling/sanctifier-core) in Lean 4 and proves the specification
claims C1-C10 about them.

The detectors walk a syntax tree produced by the syn Rust parser.  We embed
the fragment of the syn AST that the detectors inspect: the constructors
below correspond one-to-one to the syn::Expr / syn::Stmt / syn::Item
variants that the detector code pattern-matches on; every other variant is
collapsed into an explicit "other" constructor carrying no sub-expressions
(the detectors either ignore those variants or — for the visitors that use
syn's default traversal — would merely descend through them).  Line numbers
that the code reads from spans are modelled as parser-provided fields on
the corresponding constructors.
-/

namespace Sanctifier

/-- Finding severity (rules/mod.rs, enum Severity). -/
inductive Severity where
  | error
  | warning
  | info
deriving DecidableEq, Repr

/-- Binary operators distinguished by ArithVisitor::classify_op
(rules/arithmetic_overflow.rs).  All syn::BinOp variants other than the six
overflow-prone ones are collapsed into otherOp (classify_op returns None on
them). -/
inductive BinOp where
  | add
  | sub
  | mul
  | addAssign
  | subAssign
  | mulAssign
  | otherOp
deriving DecidableEq, Repr

/-- The subset of syn::Lit the detectors inspect (string / integer / bool
literals); every other literal kind is otherLit. -/
inductive Lit where
  | str (s : String)
  | int (n : Nat)
  | bool (b : Bool)
  | otherLit
deriving DecidableEq, Repr

mutual

/-- Expressions: the syn::Expr variants the detectors match on.
For constructors whose span the code reads (method calls, calls, macros,
binary expressions) we carry the 1-based source line as a field; for a
binary expression the field is the start line of the LEFT operand, which is
what ArithVisitor::visit_expr_binary reads (node.left.span().start().line).
otherE stands for any remaining expression variant; the detectors with
hand-written traversals (auth_gap, panic_detection) ignore those variants
wholesale, so modelling them without children is faithful for every claim
proved below. -/
inductive Expr where
  | litE (l : Lit)
  | pathE (segs : List String)
  | call (func : Expr) (args : ExprList) (line : Nat)
  | methodCall (receiver : Expr) (method : String) (args : ExprList) (line : Nat)
  | binary (op : BinOp) (left : Expr) (right : Expr) (leftLine : Nat)
  | blockE (body : Stmts)
  | iteE (cond : Expr) (thenB : Stmts) (elseE : Expr)
  | ifE (cond : Expr) (thenB : Stmts)
  | matchE (scrut : Expr) (arms : ExprList)
  | macE (segs : List String) (tokens : String) (line : Nat)
  | refE (e : Expr)
  | parenE (e : Expr)
  | otherE

/-- Argument lists / match-arm body lists (List syn::Expr, kept as a mutual
inductive so that all recursions are plainly structural). -/
inductive ExprList where
  | nil
  | cons (head : Expr) (tail : ExprList)

/-- Statement lists (the stmts of a syn::Block). -/
inductive Stmts where
  | nil
  | cons (head : Stmt) (tail : Stmts)

/-- Statements: the syn::Stmt variants the detectors match on.  localS is a
let-statement with an initializer (the detectors only look at local.init);
macS is Stmt::Macro with its path segments and (opaque) token string. -/
inductive Stmt where
  | exprS (e : Expr)
  | localS (init : Expr)
  | localNoInitS
  | macS (segs : List String) (tokens : String)
  | otherS

end

/-- syn::Path::is_ident: the path is a single segment equal to the name. -/
def pathIsIdent (segs : List String) (name : String) : Bool :=
  segs == [name]

/-- Last path segment (path.segments.last()). -/
def lastSeg (segs : List String) : Option String :=
  segs.getLast?

/-! ## Token rendering

auth_gap.rs renders expressions to strings with quote! and then performs
substring tests on the result.  We model quote's token rendering: a list of
tokens joined by single spaces.  The needles searched for ("storage",
"persistent", "temporary", "instance") contain no spaces, so they occur in
the rendered string exactly when they occur inside a single token; the
exact spacing conventions of quote are therefore immaterial to every
substring test the code performs, and we render with one space between
all tokens. -/

/-- The token string of the six arithmetic operators (plus a placeholder
for the collapsed remainder). -/
def BinOp.token : BinOp → String
  | .add => "+"
  | .sub => "-"
  | .mul => "*"
  | .addAssign => "+="
  | .subAssign => "-="
  | .mulAssign => "*="
  | .otherOp => "<op>"

/-- Interleave a separator token between path segments (quote renders
a::b as the tokens a, ::, b). -/
def sepBy (sep : String) : List String → List String
  | [] => []
  | [s] => [s]
  | s :: rest => s :: sep :: sepBy sep rest

mutual

/-- Token stream of an expression, as produced by quote! / ToTokens. -/
def Expr.tokens : Expr → List String
  | .litE (.str s) => ["\"" ++ s ++ "\""]
  | .litE (.int n) => [toString n]
  | .litE (.bool b) => [toString b]
  | .litE .otherLit => ["<lit>"]
  | .pathE segs => sepBy "::" segs
  | .call f args _ => f.tokens ++ ["("] ++ args.tokensComma ++ [")"]
  | .methodCall r m args _ => r.tokens ++ [".", m, "("] ++ args.tokensComma ++ [")"]
  | .binary op l r _ => l.tokens ++ [op.token] ++ r.tokens
  | .blockE b => ["\x7b"] ++ b.tokens ++ ["\x7d"]
  | .iteE c t e => ["if"] ++ c.tokens ++ ["\x7b"] ++ t.tokens ++ ["\x7d", "else"] ++ e.tokens
  | .ifE c t => ["if"] ++ c.tokens ++ ["\x7b"] ++ t.tokens ++ ["\x7d"]
  | .matchE s arms => ["match"] ++ s.tokens ++ ["\x7b"] ++ arms.tokensComma ++ ["\x7d"]
  | .macE segs toks _ => sepBy "::" segs ++ ["!", "(", toks, ")"]
  | .refE e => ["&"] ++ e.tokens
  | .parenE e => ["("] ++ e.tokens ++ [")"]
  | .otherE => ["<expr>"]

/-- Token stream of a comma-separated expression list. -/
def ExprList.tokensComma : ExprList → List String
  | .nil => []
  | .cons e .nil => e.tokens
  | .cons e rest => e.tokens ++ [","] ++ rest.tokensComma

/-- Token stream of a statement list. -/
def Stmts.tokens : Stmts → List String
  | .nil => []
  | .cons s rest => s.tokens ++ rest.tokens

/-- Token stream of a statement. -/
def Stmt.tokens : Stmt → List String
  | .exprS e => e.tokens ++ [";"]
  | .localS init => ["let", "_", "="] ++ init.tokens ++ [";"]
  | .localNoInitS => ["let", "_", ";"]
  | .macS segs toks => sepBy "::" segs ++ ["!", "(", toks, ")", ";"]
  | .otherS => ["<stmt>"]

end

/-- Render an expression to a string the way TokenStream::to_string does
(tokens joined by spaces). -/
def render (e : Expr) : String :=
  String.intercalate " " e.tokens

/-- Char-list prefix test (needle taken as the second argument). -/
def charsStartWith : List Char → List Char → Bool
  | _, [] => true
  | [], _ :: _ => false
  | c :: cs, d :: ds => c == d && charsStartWith cs ds

/-- Char-list substring test: the needle occurs at some position. -/
def charsContain : List Char → List Char → Bool
  | [], needle => needle.isEmpty
  | c :: rest, needle => charsStartWith (c :: rest) needle || charsContain rest needle

/-- str::contains: the needle occurs as a contiguous substring of the
haystack. -/
def strContains (hay needle : String) : Bool :=
  charsContain hay.toList needle.toList

/-- str::starts_with. -/
def strStartsWith (s needle : String) : Bool :=
  charsStartWith s.toList needle.toList

/-- str::ends_with. -/
def strEndsWith (s needle : String) : Bool :=
  charsStartWith s.toList.reverse needle.toList.reverse

/-! ## Types (for the ledger-size estimator) -/

mutual

/-- The syn::Type fragment LedgerSizeRule::estimate_type_size inspects: a
path type keeps only its last segment name plus its angle-bracketed TYPE
arguments (the only generic arguments the code reads); an array type keeps
its element and, when the length is an integer literal, that length.  Every
other type is otherT (the code charges 8 bytes for those). -/
inductive Ty where
  | pathT (name : String) (args : TyList)
  | arrT (elem : Ty) (len : Option Nat)
  | otherT

/-- Generic type-argument lists, mutual with Ty. -/
inductive TyList where
  | nil
  | cons (t : Ty) (ts : TyList)

end

/-! ## Items and files -/

/-- A function inside an impl block (syn::ImplItem::Fn), with its
visibility, name and body statements. -/
structure ImplFn where
  isPub : Bool
  name : String
  body : Stmts

/-- Top-level items: the syn::Item variants the detectors match on.
itemConst models a const item with a literal initializer (the only form
visit_item_const of the storage visitor inspects); itemStruct / itemEnum
carry a flag recording whether a #[contracttype] attribute is present
(has_contracttype). -/
inductive Item where
  | itemFn (name : String) (body : Stmts)
  | itemImpl (fns : List ImplFn)
  | itemConst (name : String) (value : Lit) (line : Nat)
  | itemStruct (contracttype : Bool) (name : String) (fields : List Ty)
  | itemEnum (contracttype : Bool) (name : String) (variants : List (List Ty))
  | itemOther

/-- A parsed source file (syn::File): its list of items. -/
abbrev File := List Item

/-! ## Findings (rules/mod.rs: RuleViolation)

Message strings in the source are built with format!; we keep them
verbatim except that the single-quote characters the format strings wrap
around interpolated names are omitted. -/

/-- A finding, as in rules/mod.rs (struct RuleViolation). -/
structure RuleViolation where
  rule_name : String
  severity : Severity
  message : String
  location : String
  suggestion : Option String
deriving DecidableEq, Repr

/-! ## Auth-gap detector (rules/auth_gap.rs)

AuthGapRule::check parses the file (parse failure yields the empty list),
then for every PUBLIC function of every impl block walks the body with
check_fn_body / check_expr, threading three booleans, and flags the
function when it has a mutation but neither a read nor an auth call.

check_expr renders a method call receiver with quote!(#m.receiver).
Because quote interpolates the variable m (the WHOLE method-call
expression) and then appends the literal tokens . receiver, the string
that is substring-tested is the rendering of the entire call followed by
" . receiver" — not the rendering of the receiver alone.  The embedding
reproduces this faithfully. -/

namespace AuthGap

/-- The three booleans threaded through check_fn_body / check_expr. -/
structure Flags where
  has_mutation : Bool
  has_read : Bool
  has_auth : Bool
deriving DecidableEq, Repr

/-- The receiver string computed by quote!(#m.receiver) for a method call m:
the tokens of the whole call followed by the literal tokens . receiver. -/
def receiverStr (m : Expr) : String :=
  render m ++ " . receiver"

/-- receiver_str.contains of the four storage-family words. -/
def mentionsStorageFamily (s : String) : Bool :=
  strContains s "storage" || strContains s "persistent" ||
    strContains s "temporary" || strContains s "instance"

mutual

/-- check_fn_body: fold the statement checks over the block. -/
def check_fn_body : Stmts → Flags → Flags
  | .nil, fl => fl
  | .cons s rest, fl => check_fn_body rest (check_stmt s fl)

/-- The per-statement match inside check_fn_body: expression statements and
local initializers are checked; a statement-level macro named require_auth
or require_auth_for_args sets has_auth; everything else is ignored. -/
def check_stmt : Stmt → Flags → Flags
  | .exprS e, fl => check_expr e fl
  | .localS init, fl => check_expr init fl
  | .macS segs _, fl =>
      if pathIsIdent segs "require_auth" || pathIsIdent segs "require_auth_for_args" then
        { fl with has_auth := true }
      else fl
  | .localNoInitS, fl => fl
  | .otherS, fl => fl

/-- check_expr: Call / MethodCall / Block / If / Match are inspected, every
other expression variant falls through the wildcard arm untouched. -/
def check_expr : Expr → Flags → Flags
  | .call func args _, fl =>
      let fl :=
        match func with
        | .pathE segs =>
            match lastSeg segs with
            | some ident =>
                if ident == "require_auth" || ident == "require_auth_for_args" then
                  { fl with has_auth := true }
                else fl
            | none => fl
        | _ => fl
      check_args args fl
  | .methodCall recv name args ln, fl =>
      let rstr := receiverStr (.methodCall recv name args ln)
      let fl :=
        if (name == "set" || name == "update" || name == "remove") &&
            mentionsStorageFamily rstr then
          { fl with has_mutation := true }
        else fl
      let fl :=
        if name == "get" && mentionsStorageFamily rstr then
          { fl with has_read := true }
        else fl
      let fl :=
        if name == "require_auth" || name == "require_auth_for_args" then
          { fl with has_auth := true }
        else fl
      check_args args (check_expr recv fl)
  | .blockE b, fl => check_fn_body b fl
  | .iteE cond thenB elseE, fl =>
      check_expr elseE (check_fn_body thenB (check_expr cond fl))
  | .ifE cond thenB, fl => check_fn_body thenB (check_expr cond fl)
  | .matchE scrut arms, fl => check_args arms (check_expr scrut fl)
  | .litE _, fl => fl
  | .pathE _, fl => fl
  | .binary _ _ _ _, fl => fl
  | .macE _ _ _, fl => fl
  | .refE _, fl => fl
  | .parenE _, fl => fl
  | .otherE, fl => fl

/-- Checking each argument of a call / each match arm body in order. -/
def check_args : ExprList → Flags → Flags
  | .nil, fl => fl
  | .cons e rest, fl => check_args rest (check_expr e fl)

end

/-- The finding AuthGapRule::check pushes for a flagged function. -/
def violation (fnName : String) : RuleViolation :=
  { rule_name := "auth_gap"
    severity := .warning
    message := "Function " ++ fnName ++ " performs storage mutation without authentication"
    location := fnName
    suggestion := some "Add require_auth() or require_auth_for_args() before storage operations" }

/-- The per-file loop of AuthGapRule::check: public impl-block functions
whose flags come out (mutation, no read, no auth) are flagged once each. -/
def checkFile (f : File) : List RuleViolation :=
  f.flatMap fun item =>
    match item with
    | .itemImpl fns =>
        fns.flatMap fun fn =>
          if fn.isPub then
            let fl := check_fn_body fn.body ⟨false, false, false⟩
            if fl.has_mutation && !fl.has_read && !fl.has_auth then [violation fn.name]
            else []
          else []
    | _ => []

/-- AuthGapRule::check: parse failure degrades to the empty list. -/
def check (parsed : Option File) : List RuleViolation :=
  match parsed with
  | none => []
  | some f => checkFile f

end AuthGap

/-! ## Panic / unwrap detector (rules/panic_detection.rs)

PanicDetectionRule::check parses the file, then walks every function of
every impl block (regardless of visibility; top-level free functions are
never visited) with check_fn_panics / check_expr_panics, pushing one
PanicIssue per detected occurrence (statement-level panic! macros,
expression-level panic! macros, and unwrap / expect method calls).  The
recursion descends into method-call receivers and arguments, call
arguments, nested blocks, if and match; all other expression variants fall
through the wildcard arm, so occurrences inside them are not found. -/

namespace PanicDetection

/-- struct PanicIssue. -/
structure PanicIssue where
  function_name : String
  issue_type : String
  location : String
deriving DecidableEq, Repr

mutual

/-- check_fn_panics: per-statement handling, pushing issues in order.
The issues produced by each statement are concatenated in statement order,
matching the Vec push order of the source. -/
def check_fn_panics (fnName : String) : Stmts → List PanicIssue
  | .nil => []
  | .cons s rest => stmt_panics fnName s ++ check_fn_panics fnName rest

/-- The per-statement match of check_fn_panics. -/
def stmt_panics (fnName : String) : Stmt → List PanicIssue
  | .exprS e => check_expr_panics fnName e
  | .localS init => check_expr_panics fnName init
  | .macS segs _ =>
      if pathIsIdent segs "panic" then
        [{ function_name := fnName, issue_type := "panic!", location := fnName }]
      else []
  | .localNoInitS => []
  | .otherS => []

/-- check_expr_panics. -/
def check_expr_panics (fnName : String) : Expr → List PanicIssue
  | .macE segs _ _ =>
      if pathIsIdent segs "panic" then
        [{ function_name := fnName, issue_type := "panic!", location := fnName }]
      else []
  | .methodCall recv name args _ =>
      (if name == "unwrap" || name == "expect" then
        [{ function_name := fnName, issue_type := name, location := fnName }]
      else []) ++ check_expr_panics fnName recv ++ args_panics fnName args
  | .call _ args _ => args_panics fnName args
  | .blockE b => check_fn_panics fnName b
  | .iteE cond thenB elseE =>
      check_expr_panics fnName cond ++ check_fn_panics fnName thenB ++
        check_expr_panics fnName elseE
  | .ifE cond thenB =>
      check_expr_panics fnName cond ++ check_fn_panics fnName thenB
  | .matchE scrut arms =>
      check_expr_panics fnName scrut ++ args_panics fnName arms
  | .litE _ => []
  | .pathE _ => []
  | .binary _ _ _ _ => []
  | .refE _ => []
  | .parenE _ => []
  | .otherE => []

/-- Issues of each argument in order. -/
def args_panics (fnName : String) : ExprList → List PanicIssue
  | .nil => []
  | .cons e rest => check_expr_panics fnName e ++ args_panics fnName rest

end

/-- The RuleViolation built from a PanicIssue: panic! is Error severity,
unwrap / expect are Warning. -/
def toViolation (issue : PanicIssue) : RuleViolation :=
  { rule_name := "panic_detection"
    severity := if issue.issue_type == "panic!" then .error else .warning
    message := "Use of " ++ issue.issue_type ++ " can cause contract failure"
    location := issue.location
    suggestion := some "Use Result types and proper error handling instead" }

/-- The issue collection of PanicDetectionRule::check: every function of
every impl block is scanned (visibility is not consulted); no other item
kind is visited. -/
def collectIssues (f : File) : List PanicIssue :=
  f.flatMap fun item =>
    match item with
    | .itemImpl fns => fns.flatMap fun fn => check_fn_panics fn.name fn.body
    | _ => []

/-- The per-file loop of PanicDetectionRule::check. -/
def checkFile (f : File) : List RuleViolation :=
  (collectIssues f).map toViolation

/-- PanicDetectionRule::check: parse failure degrades to the empty list. -/
def check (parsed : Option File) : List RuleViolation :=
  match parsed with
  | none => []
  | some f => checkFile f

/-! ### Specification-side occurrence counts

countStmts counts the panic! / unwrap / expect occurrences in exactly the
positions the detector's recursion traverses; allCountExpr counts the
occurrences in EVERY expression position of the tree (descending through
the variants the detector's wildcard arm ignores as well), which is what
the phrase "every occurrence inside an impl-block method" denotes. -/

/-- Whether a single expression node is itself an occurrence (a panic!
macro or an unwrap / expect method call). -/
def nodeOcc : Expr → Nat
  | .macE segs _ _ => if pathIsIdent segs "panic" then 1 else 0
  | .methodCall _ name _ _ => if name == "unwrap" || name == "expect" then 1 else 0
  | _ => 0

mutual

/-- Occurrences in the positions the detector traverses, per statement
list. -/
def countStmts : Stmts → Nat
  | .nil => 0
  | .cons s rest => countStmt s + countStmts rest

/-- Occurrences in the positions the detector traverses, per statement. -/
def countStmt : Stmt → Nat
  | .exprS e => countExpr e
  | .localS init => countExpr init
  | .macS segs _ => if pathIsIdent segs "panic" then 1 else 0
  | .localNoInitS => 0
  | .otherS => 0

/-- Occurrences in the positions the detector traverses, per expression. -/
def countExpr : Expr → Nat
  | .macE segs _ _ => if pathIsIdent segs "panic" then 1 else 0
  | .methodCall recv name args _ =>
      (if name == "unwrap" || name == "expect" then 1 else 0) +
        countExpr recv + countArgs args
  | .call _ args _ => countArgs args
  | .blockE b => countStmts b
  | .iteE cond thenB elseE => countExpr cond + countStmts thenB + countExpr elseE
  | .ifE cond thenB => countExpr cond + countStmts thenB
  | .matchE scrut arms => countExpr scrut + countArgs arms
  | .litE _ => 0
  | .pathE _ => 0
  | .binary _ _ _ _ => 0
  | .refE _ => 0
  | .parenE _ => 0
  | .otherE => 0

/-- Occurrences in the positions the detector traverses, per argument
list. -/
def countArgs : ExprList → Nat
  | .nil => 0
  | .cons e rest => countExpr e + countArgs rest

end

/-- Traversed occurrences of a whole file (impl-block methods only, like
the detector). -/
def countFile (f : File) : Nat :=
  (f.map fun item =>
    match item with
    | .itemImpl fns => (fns.map fun fn => countStmts fn.body).sum
    | _ => 0).sum

mutual

/-- ALL occurrences in an expression, descending into every variant. -/
def allCountExpr : Expr → Nat
  | .macE segs _ _ => if pathIsIdent segs "panic" then 1 else 0
  | .methodCall recv name args _ =>
      (if name == "unwrap" || name == "expect" then 1 else 0) +
        allCountExpr recv + allCountArgs args
  | .call func args _ => allCountExpr func + allCountArgs args
  | .binary _ l r _ => allCountExpr l + allCountExpr r
  | .blockE b => allCountStmts b
  | .iteE cond thenB elseE =>
      allCountExpr cond + allCountStmts thenB + allCountExpr elseE
  | .ifE cond thenB => allCountExpr cond + allCountStmts thenB
  | .matchE scrut arms => allCountExpr scrut + allCountArgs arms
  | .refE e => allCountExpr e
  | .parenE e => allCountExpr e
  | .litE _ => 0
  | .pathE _ => 0
  | .otherE => 0

/-- ALL occurrences in a statement list. -/
def allCountStmts : Stmts → Nat
  | .nil => 0
  | .cons s rest => allCountStmt s + allCountStmts rest

/-- ALL occurrences in a statement. -/
def allCountStmt : Stmt → Nat
  | .exprS e => allCountExpr e
  | .localS init => allCountExpr init
  | .macS segs _ => if pathIsIdent segs "panic" then 1 else 0
  | .localNoInitS => 0
  | .otherS => 0

/-- ALL occurrences in an argument list. -/
def allCountArgs : ExprList → Nat
  | .nil => 0
  | .cons e rest => allCountExpr e + allCountArgs rest

end

/-- ALL occurrences inside impl-block methods of a file. -/
def allCountFile (f : File) : Nat :=
  (f.map fun item =>
    match item with
    | .itemImpl fns => (fns.map fun fn => allCountStmts fn.body).sum
    | _ => 0).sum

/-- Whether an item is an impl block. -/
def isImplItem : Item → Bool
  | .itemImpl _ => true
  | _ => false

end PanicDetection

/-! ## Reentrancy / CEI scanner (reentrancy.rs)

scan_reentrancy parses the file (failure yields the empty list) and visits
impl blocks only.  ReentrancyVisitor overrides visit_impl_item_fn (saving
and restoring current_fn and saw_cross_call around each function, resetting
saw_cross_call on entry), visit_expr_method_call and visit_expr_call (which
run check_method on the callee name and then continue with syn's DEFAULT
traversal, which descends into every sub-expression).  check_method sets
saw_cross_call on a cross-call name and pushes at most one CEI issue per
function name on a mutation name seen while saw_cross_call holds. -/

namespace Reentrancy

/-- struct ReentrancyIssue. -/
structure ReentrancyIssue where
  function_name : String
  issue_type : String
  location : String
deriving DecidableEq, Repr

/-- Visitor state: the issue list, the current function, and the
saw_cross_call flag. -/
structure VState where
  issues : List ReentrancyIssue
  current_fn : Option String
  saw_cross_call : Bool

/-- The cross-contract call name test of check_method. -/
def isCrossCall (method : String) : Bool :=
  method == "invoke_contract" || method == "try_invoke_contract" ||
    method == "call" || method == "try_call" ||
    strEndsWith method "_client" || strStartsWith method "invoke"

/-- The storage mutation name test of check_method. -/
def isMutation (method : String) : Bool :=
  method == "set" || method == "update" || method == "remove"

/-- check_method: record a cross call, then flag a mutation that follows
one, deduplicating on the function NAME across the whole issue list. -/
def check_method (st : VState) (method : String) : VState :=
  let st :=
    if isCrossCall method then { st with saw_cross_call := true } else st
  if isMutation method && st.saw_cross_call then
    match st.current_fn with
    | some fnName =>
        if st.issues.any (fun i => i.function_name == fnName) then st
        else
          { st with issues := st.issues ++
              [{ function_name := fnName
                 issue_type := "CEI violation: storage mutation after cross-contract call"
                 location := "fn " ++ fnName }] }
    | none => st
  else st

mutual

/-- syn's default traversal of an expression, with the two overridden
visitors applied first at method calls and calls (for a call, check_method
runs only when the callee is a path, on its last segment). -/
def visitExpr (st : VState) : Expr → VState
  | .methodCall recv name args _ =>
      visitArgs (visitExpr (check_method st name) recv) args
  | .call func args _ =>
      let st :=
        match func with
        | .pathE segs =>
            match lastSeg segs with
            | some ident => check_method st ident
            | none => st
        | _ => st
      visitArgs (visitExpr st func) args
  | .binary _ l r _ => visitExpr (visitExpr st l) r
  | .blockE b => visitStmts st b
  | .iteE cond thenB elseE =>
      visitExpr (visitStmts (visitExpr st cond) thenB) elseE
  | .ifE cond thenB => visitStmts (visitExpr st cond) thenB
  | .matchE scrut arms => visitArgs (visitExpr st scrut) arms
  | .refE e => visitExpr st e
  | .parenE e => visitExpr st e
  | .litE _ => st
  | .pathE _ => st
  | .macE _ _ _ => st
  | .otherE => st

/-- Default traversal of a statement list. -/
def visitStmts (st : VState) : Stmts → VState
  | .nil => st
  | .cons s rest => visitStmts (visitStmt st s) rest

/-- Default traversal of a statement. -/
def visitStmt (st : VState) : Stmt → VState
  | .exprS e => visitExpr st e
  | .localS init => visitExpr st init
  | .localNoInitS => st
  | .macS _ _ => st
  | .otherS => st

/-- Default traversal of an argument list. -/
def visitArgs (st : VState) : ExprList → VState
  | .nil => st
  | .cons e rest => visitArgs (visitExpr st e) rest

end

/-- visit_impl_item_fn: save current_fn and saw_cross_call, set the
function name, reset the flag, walk the body, restore both. -/
def visitImplFn (st : VState) (fn : ImplFn) : VState :=
  let prevFn := st.current_fn
  let prevCross := st.saw_cross_call
  let st1 := visitStmts { st with current_fn := some fn.name, saw_cross_call := false } fn.body
  { st1 with current_fn := prevFn, saw_cross_call := prevCross }

/-- scan_reentrancy: only impl items are visited; parse failure yields
the empty list. -/
def scan_reentrancy (parsed : Option File) : List ReentrancyIssue :=
  match parsed with
  | none => []
  | some f =>
      let final := f.foldl
        (fun st item =>
          match item with
          | .itemImpl fns => fns.foldl visitImplFn st
          | _ => st)
        ⟨[], none, false⟩
      final.issues

end Reentrancy

/-! ## Ledger-size estimator (rules/ledger_size.rs)

LedgerSizeRule carries ledger_limit (default 64000), approaching_threshold
(default 0.8) and strict_mode.  check computes, per #[contracttype] struct
or enum, a heuristic byte estimate and classifies it with classify_size.
The f64 arithmetic of the source is modelled exactly over the rationals:
the strict threshold (ledger_limit as f64 * 0.5) as usize is the integer
half of the limit (exact, since 0.5 is a power of two), and the comparison
size as f64 >= ledger_limit as f64 * approaching_threshold is modelled as
the exact rational comparison. -/

namespace LedgerSize

/-- The rule's configuration fields. -/
structure Config where
  ledger_limit : Nat
  approaching_threshold : ℚ
  strict_mode : Bool

/-- enum SizeWarningLevel. -/
inductive SizeWarningLevel where
  | exceedsLimit
  | approachingLimit
deriving DecidableEq, Repr

mutual

/-- estimate_type_size: the per-type weight table, with Vec / Map / Option
recursing into their generic type arguments and fixed-length arrays
multiplying the element weight by the literal length. -/
def estimate_type_size : Ty → Nat
  | .pathT name args =>
      if name == "u32" || name == "i32" || name == "bool" then 4
      else if name == "u64" || name == "i64" then 8
      else if name == "u128" || name == "i128" || name == "I128" || name == "U128" then 16
      else if name == "Address" then 32
      else if name == "Bytes" || name == "BytesN" || name == "String" || name == "Symbol" then 64
      else if name == "Vec" then
        match args with
        | .cons inner _ => 8 + estimate_type_size inner
        | .nil => 128
      else if name == "Map" then
        let inner := sum_type_sizes args
        if inner > 0 then 16 + inner * 2 else 128
      else if name == "Option" then
        match args with
        | .cons inner _ => 1 + estimate_type_size inner
        | .nil => 32
      else 32
  | .arrT elem (some n) => n * estimate_type_size elem
  | .arrT _ none => 64
  | .otherT => 8

/-- The sum of the estimated sizes of all generic type arguments (the
filter_map-then-sum of the Map arm). -/
def sum_type_sizes : TyList → Nat
  | .nil => 0
  | .cons t ts => estimate_type_size t + sum_type_sizes ts

end

/-- estimate_struct_size: the sum of the field estimates (named and unnamed
fields are summed identically; a unit struct is the empty field list). -/
def estimate_struct_size (fields : List Ty) : Nat :=
  (fields.map estimate_type_size).sum

/-- estimate_enum_size: a 4-byte discriminant plus the maximum variant
payload (each variant weighs the sum of its field estimates). -/
def estimate_enum_size (variants : List (List Ty)) : Nat :=
  4 + variants.foldl (fun m v => max m ((v.map estimate_type_size).sum)) 0

/-- classify_size, with strict_threshold passed in as in the source. -/
def classify_size (cfg : Config) (size strictThreshold : Nat) : Option SizeWarningLevel :=
  if size ≥ cfg.ledger_limit ∨ (cfg.strict_mode ∧ size ≥ strictThreshold) then
    some .exceedsLimit
  else if (size : ℚ) ≥ (cfg.ledger_limit : ℚ) * cfg.approaching_threshold then
    some .approachingLimit
  else none

/-- The finding pushed for a classified struct ("Struct") or enum ("Enum"):
Error severity for ExceedsLimit, Warning for ApproachingLimit; the location
string carries the estimate and the limit. -/
def violation (cfg : Config) (kindWord name : String) (size : Nat)
    (level : SizeWarningLevel) : RuleViolation :=
  { rule_name := "ledger_size"
    severity := match level with
      | .exceedsLimit => .error
      | .approachingLimit => .warning
    message := kindWord ++ " " ++ name ++ " estimated size " ++ toString size ++
      " bytes exceeds or approaches limit"
    location := name ++ ":estimated " ++ toString size ++ " bytes, limit " ++
      toString cfg.ledger_limit ++ " bytes"
    suggestion := none }

/-- The per-item body of the check loop. -/
def checkItem (cfg : Config) (item : Item) : List RuleViolation :=
  let strictThreshold := cfg.ledger_limit / 2
  match item with
  | .itemStruct true name fields =>
      let size := estimate_struct_size fields
      match classify_size cfg size strictThreshold with
      | some level => [violation cfg "Struct" name size level]
      | none => []
  | .itemEnum true name variants =>
      let size := estimate_enum_size variants
      match classify_size cfg size strictThreshold with
      | some level => [violation cfg "Enum" name size level]
      | none => []
  | _ => []

/-- The item loop of LedgerSizeRule::check. -/
def checkFile (cfg : Config) : File → List RuleViolation
  | [] => []
  | item :: rest => checkItem cfg item ++ checkFile cfg rest

/-- LedgerSizeRule::check: parse failure degrades to the empty list. -/
def check (cfg : Config) (parsed : Option File) : List RuleViolation :=
  match parsed with
  | none => []
  | some f => checkFile cfg f

end LedgerSize

/-! ## Storage-key collision detector (storage_collision.rs)

StorageVisitor accumulates key occurrences into a HashMap keyed by
(storage scope, key value); after the whole tree is visited, final_check
iterates the map and, for every bucket with more than one occurrence,
emits one StorageCollisionIssue per occurrence, each listing the other
occurrences of the bucket.

The HashMap is modelled as an association list of buckets: add_key (the
entry().or_default().push(info) idiom) appends the occurrence to the
existing bucket of its key, or appends a fresh bucket.  Rust's std HashMap
iterates its buckets in an UNSPECIFIED order (each map instance draws a
fresh random hash seed), so final_check is stated over an arbitrary bucket
order: any permutation of the accumulated buckets is a possible iteration
order of one run.

The message string of an issue is kept as its variable parts: the scope
word is embedded in key_type exactly as the source formats it, and the
list of other-occurrence strings ("location (line N)") that the source
joins into the message text is kept as the field others. -/

namespace StorageCollision

/-- enum SorobanStorageType. -/
inductive SorobanStorageType where
  | instanceScope
  | persistentScope
  | temporaryScope
  | unknownScope
deriving DecidableEq, Repr

/-- SorobanStorageType::as_str. -/
def SorobanStorageType.as_str : SorobanStorageType → String
  | .instanceScope => "instance"
  | .persistentScope => "persistent"
  | .temporaryScope => "temporary"
  | .unknownScope => "unknown"

/-- struct KeyInfo. -/
structure KeyInfo where
  key_type : String
  location : String
  line : Nat
deriving DecidableEq, Repr

/-- The accumulated map from (storage scope, key value) to the occurrences
recorded under that key, in insertion order within each bucket. -/
abbrev KeyMap := List ((SorobanStorageType × String) × List KeyInfo)

/-- add_key: push the occurrence onto the bucket of its (scope, value) key,
creating the bucket if absent (HashMap::entry().or_default().push). -/
def add_key (keys : KeyMap) (k : SorobanStorageType × String) (info : KeyInfo) : KeyMap :=
  match keys with
  | [] => [(k, [info])]
  | (k0, infos0) :: rest =>
      if k0 = k then (k0, infos0 ++ [info]) :: rest
      else (k0, infos0) :: add_key rest k info

/-- struct StorageCollisionIssue, with the joined message kept as its
variable parts (the others field). -/
structure StorageCollisionIssue where
  key_value : String
  key_type : String
  location : String
  others : List String
deriving DecidableEq, Repr

/-- The "location (line N)" string the source formats for each other
occurrence of a colliding bucket. -/
def fmtOther (info : KeyInfo) : String :=
  info.location ++ " (line " ++ toString info.line ++ ")"

/-- The issues final_check emits for one bucket: nothing when the bucket
has at most one occurrence, otherwise one issue per occurrence, each
listing all the other occurrences of the bucket. -/
def bucketIssues (scope : SorobanStorageType) (value : String)
    (infos : List KeyInfo) : List StorageCollisionIssue :=
  if 1 < infos.length then
    (List.range infos.length).map fun i =>
      let current := infos.getD i ⟨"", "", 0⟩
      let others := (infos.enum.filter (fun p => p.1 != i)).map fun p => fmtOther p.2
      { key_value := value
        key_type := current.key_type ++ " (" ++ scope.as_str ++ ")"
        location := current.location ++ ":" ++ toString current.line
        others := others }
  else []

/-- final_check: iterate the buckets (in the map's iteration order) and
emit the per-bucket issues. -/
def final_check (keys : KeyMap) : List StorageCollisionIssue :=
  keys.flatMap fun kb => bucketIssues kb.1.1 kb.1.2 kb.2

/-- parse_storage_type_from_expr: walk the method-call receiver chain
until an instance / persistent / temporary call is found. -/
def parse_storage_type_from_expr : Expr → SorobanStorageType
  | .methodCall recv name _ _ =>
      if name == "instance" then .instanceScope
      else if name == "persistent" then .persistentScope
      else if name == "temporary" then .temporaryScope
      else parse_storage_type_from_expr recv
  | .refE e => parse_storage_type_from_expr e
  | .parenE e => parse_storage_type_from_expr e
  | _ => .unknownScope

/-- extract_key_value_expr: literal keys yield their value, path keys and
renderable sub-expressions yield their token rendering. -/
def extract_key_value_expr : Expr → Option String
  | .litE (.str s) => some s
  | .litE (.int n) => some (toString n)
  | .litE (.bool b) => some (toString b)
  | .litE .otherLit => none
  | .pathE segs => some (render (.pathE segs))
  | .refE e => extract_key_value_expr e
  | .parenE e => extract_key_value_expr e
  | e@(.call _ _ _) => some (render e)
  | e@(.methodCall _ _ _ _) => some (render e)
  | e@(.macE _ _ _) => some (render e)
  | _ => none

/-- The storage method names whose first argument is recorded as a key. -/
def STORAGE_OPS : List String :=
  ["get", "set", "has", "remove", "update", "try_update"]

/-- str::trim_matches with the double-quote character: strip leading and
trailing quote characters. -/
def trimQuotes (s : String) : String :=
  let cs := s.toList.dropWhile (fun c => c = '\"')
  String.mk ((cs.reverse.dropWhile (fun c => c = '\"')).reverse)

/-- The first element of an argument list (ExprCall/ExprMethodCall args). -/
def ExprList.head? : ExprList → Option Expr
  | .nil => none
  | .cons e _ => some e

/-- The second element of an argument list. -/
def ExprList.second? : ExprList → Option Expr
  | .nil => none
  | .cons _ .nil => none
  | .cons _ (.cons e _) => some e

/-- The length of an argument list. -/
def ExprList.length : ExprList → Nat
  | .nil => 0
  | .cons _ rest => 1 + ExprList.length rest

mutual

/-- The StorageVisitor traversal: the overridden visitors
(visit_expr_call for Symbol::new, visit_expr_macro for symbol_short!,
visit_expr_method_call for storage operations) run their extraction and
then continue with syn's default traversal into every sub-expression. -/
def visitExpr (keys : KeyMap) : Expr → KeyMap
  | .call func args ln =>
      let keys :=
        match func with
        | .pathE segs =>
            if 2 ≤ segs.length ∧ segs.getD 0 "" = "Symbol" ∧ segs.getD 1 "" = "new" ∧
                2 ≤ ExprList.length args then
              match ExprList.second? args with
              | some (.litE (.str s)) =>
                  add_key keys (.unknownScope, s) ⟨"Symbol::new", "inline", ln⟩
              | _ => keys
            else keys
        | _ => keys
      visitArgs (visitExpr keys func) args
  | .macE segs toks ln =>
      let keys :=
        if (segs.getLast?.getD "") = "symbol_short" then
          add_key keys (.unknownScope, trimQuotes toks) ⟨"symbol_short!", "inline", ln⟩
        else keys
      keys
  | .methodCall recv name args ln =>
      let keys :=
        if STORAGE_OPS.contains name then
          let scope := parse_storage_type_from_expr recv
          match ExprList.head? args with
          | some firstArg =>
              match extract_key_value_expr firstArg with
              | some value => add_key keys (scope, value) ⟨"storage::" ++ name, "storage-op", ln⟩
              | none => keys
          | none => keys
        else keys
      visitArgs (visitExpr keys recv) args
  | .binary _ l r _ => visitExpr (visitExpr keys l) r
  | .blockE b => visitStmts keys b
  | .iteE cond thenB elseE => visitExpr (visitStmts (visitExpr keys cond) thenB) elseE
  | .ifE cond thenB => visitStmts (visitExpr keys cond) thenB
  | .matchE scrut arms => visitArgs (visitExpr keys scrut) arms
  | .refE e => visitExpr keys e
  | .parenE e => visitExpr keys e
  | .litE _ => keys
  | .pathE _ => keys
  | .otherE => keys

/-- Default traversal of a statement list. -/
def visitStmts (keys : KeyMap) : Stmts → KeyMap
  | .nil => keys
  | .cons s rest => visitStmts (visitStmt keys s) rest

/-- Default traversal of a statement. -/
def visitStmt (keys : KeyMap) : Stmt → KeyMap
  | .exprS e => visitExpr keys e
  | .localS init => visitExpr keys init
  | .localNoInitS => keys
  | .macS _ _ => keys
  | .otherS => keys

/-- Default traversal of an argument list. -/
def visitArgs (keys : KeyMap) : ExprList → KeyMap
  | .nil => keys
  | .cons e rest => visitArgs (visitExpr keys e) rest

end

/-- visit_item_const: a const item whose initializer is a string literal
records its value under the Unknown scope, keyed by the const's name. -/
def visitItem (keys : KeyMap) : Item → KeyMap
  | .itemConst name (.str s) line =>
      add_key keys (.unknownScope, s) ⟨"const", name, line⟩
  | .itemConst _ _ _ => keys
  | .itemFn _ body => visitStmts keys body
  | .itemImpl fns => fns.foldl (fun ks fn => visitStmts ks fn.body) keys
  | .itemStruct _ _ _ => keys
  | .itemEnum _ _ _ => keys
  | .itemOther => keys

/-- The key map accumulated by visiting a whole file. -/
def visitFile (f : File) : KeyMap :=
  f.foldl visitItem []

/-- Modelled from the spec: the scan_storage_collisions entry point
(Analyzer::scan_storage_collisions is declared by the tests in
src/tests/storage_collision_tests.rs but its body is not under src/).
Per the spec, it parses the source (parse failure yields the empty list,
per the invalid-source test), visits the whole tree with StorageVisitor,
and runs final_check on the accumulated map.  The bucket iteration order
of the HashMap is supplied as a reordering function (any permutation of
the accumulated buckets models one run). -/
def scan_storage_collisions (order : KeyMap → KeyMap) (parsed : Option File) :
    List StorageCollisionIssue :=
  match parsed with
  | none => []
  | some f => final_check (order (visitFile f))

end StorageCollision

/-! ## Arithmetic-overflow detector (rules/arithmetic_overflow.rs)

ArithVisitor walks the whole file with syn's default traversal, tracking
the enclosing function name (set by visit_item_fn / visit_impl_item_fn and
restored on exit — modelled as a parameter, which is equivalent because the
previous value is always restored), a seen-set of (function name, operator)
pairs and the issue list.  visit_expr_binary fires BEFORE descending into
the operands (pre-order), skips operations with a string-literal operand,
and pushes at most one issue per (function name, operator) key, at the
line of the left operand of the first visited occurrence. -/

namespace Arithmetic

/-- struct ArithmeticIssue, with the location string "fn:line" kept as its
two parts. -/
structure ArithmeticIssue where
  operation : String
  suggestion : String
  fn_name : String
  line : Nat
deriving DecidableEq, Repr

/-- The location string of an issue (format!("{}:{}", fn_name, line)). -/
def ArithmeticIssue.location (i : ArithmeticIssue) : String :=
  i.fn_name ++ ":" ++ toString i.line

/-- classify_op: the six overflow-prone operators with their suggestions;
every other operator yields None. -/
def classify_op : BinOp → Option (String × String)
  | .add => some ("+", "Use .checked_add(rhs) or .saturating_add(rhs) to handle overflow")
  | .sub => some ("-", "Use .checked_sub(rhs) or .saturating_sub(rhs) to handle underflow")
  | .mul => some ("*", "Use .checked_mul(rhs) or .saturating_mul(rhs) to handle overflow")
  | .addAssign => some ("+=", "Replace a += b with a = a.checked_add(b).expect(\"overflow\")")
  | .subAssign => some ("-=", "Replace a -= b with a = a.checked_sub(b).expect(\"underflow\")")
  | .mulAssign => some ("*=", "Replace a *= b with a = a.checked_mul(b).expect(\"overflow\")")
  | .otherOp => none

/-- is_string_literal. -/
def is_string_literal : Expr → Bool
  | .litE (.str _) => true
  | _ => false

/-- Visitor state: the issue list and the seen-set of
(function name, operator) keys (HashSet modelled as a cons-list with
membership lookup). -/
structure AState where
  issues : List ArithmeticIssue
  seen : List (String × String)

/-- The body of visit_expr_binary before the recursive descent: inside a
function, for a classified operator with no string-literal operand, push
one issue per unseen (function name, operator) key. -/
def handleBinary (cf : Option String) (st : AState) (op : BinOp)
    (l r : Expr) (leftLine : Nat) : AState :=
  match cf with
  | none => st
  | some fnName =>
      match classify_op op with
      | none => st
      | some (opStr, suggestion) =>
          if !is_string_literal l && !is_string_literal r then
            if (fnName, opStr) ∈ st.seen then st
            else
              { issues := st.issues ++
                  [{ operation := opStr, suggestion := suggestion,
                     fn_name := fnName, line := leftLine }]
                seen := (fnName, opStr) :: st.seen }
          else st

mutual

/-- syn's default traversal with the overridden visit_expr_binary applied
in pre-order. -/
def visitExpr (cf : Option String) (st : AState) : Expr → AState
  | .binary op l r ln =>
      let st := handleBinary cf st op l r ln
      visitExpr cf (visitExpr cf st l) r
  | .call func args _ => visitArgs cf (visitExpr cf st func) args
  | .methodCall recv _ args _ => visitArgs cf (visitExpr cf st recv) args
  | .blockE b => visitStmts cf st b
  | .iteE cond thenB elseE =>
      visitExpr cf (visitStmts cf (visitExpr cf st cond) thenB) elseE
  | .ifE cond thenB => visitStmts cf (visitExpr cf st cond) thenB
  | .matchE scrut arms => visitArgs cf (visitExpr cf st scrut) arms
  | .refE e => visitExpr cf st e
  | .parenE e => visitExpr cf st e
  | .litE _ => st
  | .pathE _ => st
  | .macE _ _ _ => st
  | .otherE => st

/-- Default traversal of a statement list. -/
def visitStmts (cf : Option String) (st : AState) : Stmts → AState
  | .nil => st
  | .cons s rest => visitStmts cf (visitStmt cf st s) rest

/-- Default traversal of a statement. -/
def visitStmt (cf : Option String) (st : AState) : Stmt → AState
  | .exprS e => visitExpr cf st e
  | .localS init => visitExpr cf st init
  | .localNoInitS => st
  | .macS _ _ => st
  | .otherS => st

/-- Default traversal of an argument list. -/
def visitArgs (cf : Option String) (st : AState) : ExprList → AState
  | .nil => st
  | .cons e rest => visitArgs cf (visitExpr cf st e) rest

end

/-- visit_file: item functions and impl-block functions set current_fn to
their name around the walk of their body; no other item contains function
context. -/
def visitItem (st : AState) : Item → AState
  | .itemFn name body => visitStmts (some name) st body
  | .itemImpl fns => fns.foldl (fun s fn => visitStmts (some fn.name) s fn.body) st
  | _ => st

/-- The whole-file visit of ArithmeticOverflowRule::check. -/
def visitFile (f : File) : AState :=
  f.foldl visitItem ⟨[], []⟩

/-- The RuleViolation built from an ArithmeticIssue. -/
def toViolation (i : ArithmeticIssue) : RuleViolation :=
  { rule_name := "arithmetic_overflow"
    severity := .warning
    message := "Unchecked " ++ i.operation ++ " operation could overflow"
    location := i.location
    suggestion := some i.suggestion }

/-- The issue list of the whole-file visit (before the map to
RuleViolation). -/
def checkFileIssues (f : File) : List ArithmeticIssue :=
  (visitFile f).issues

/-- ArithmeticOverflowRule::check: parse failure degrades to the empty
list. -/
def check (parsed : Option File) : List RuleViolation :=
  match parsed with
  | none => []
  | some f => (checkFileIssues f).map toViolation

/-! ### Specification-side event enumeration

To state what the detector reports we enumerate, in the visitor's
traversal order, every overflow-prone binary operation in function context
whose operands are not string literals — an EVENT carries the function
name, the operator string, its suggestion and the left operand's line. -/

/-- One qualifying binary-operation occurrence, in traversal order. -/
structure Event where
  fn : String
  op : String
  sug : String
  line : Nat
deriving DecidableEq, Repr

/-- The key used for deduplication. -/
def Event.key (e : Event) : String × String := (e.fn, e.op)

/-- The event (if any) a single binary node contributes. -/
def nodeEvents (cf : Option String) (op : BinOp) (l r : Expr) (ln : Nat) : List Event :=
  match cf with
  | none => []
  | some fnName =>
      match classify_op op with
      | none => []
      | some (opStr, suggestion) =>
          if !is_string_literal l && !is_string_literal r then
            [{ fn := fnName, op := opStr, sug := suggestion, line := ln }]
          else []

mutual

/-- All qualifying events of an expression, in traversal order. -/
def exprEvents (cf : Option String) : Expr → List Event
  | .binary op l r ln =>
      nodeEvents cf op l r ln ++ exprEvents cf l ++ exprEvents cf r
  | .call func args _ => exprEvents cf func ++ argsEvents cf args
  | .methodCall recv _ args _ => exprEvents cf recv ++ argsEvents cf args
  | .blockE b => stmtsEvents cf b
  | .iteE cond thenB elseE =>
      exprEvents cf cond ++ stmtsEvents cf thenB ++ exprEvents cf elseE
  | .ifE cond thenB => exprEvents cf cond ++ stmtsEvents cf thenB
  | .matchE scrut arms => exprEvents cf scrut ++ argsEvents cf arms
  | .refE e => exprEvents cf e
  | .parenE e => exprEvents cf e
  | .litE _ => []
  | .pathE _ => []
  | .macE _ _ _ => []
  | .otherE => []

/-- Events of a statement list. -/
def stmtsEvents (cf : Option String) : Stmts → List Event
  | .nil => []
  | .cons s rest => stmtEvents cf s ++ stmtsEvents cf rest

/-- Events of a statement. -/
def stmtEvents (cf : Option String) : Stmt → List Event
  | .exprS e => exprEvents cf e
  | .localS init => exprEvents cf init
  | .localNoInitS => []
  | .macS _ _ => []
  | .otherS => []

/-- Events of an argument list. -/
def argsEvents (cf : Option String) : ExprList → List Event
  | .nil => []
  | .cons e rest => exprEvents cf e ++ argsEvents cf rest

end

/-- Events of an item. -/
def itemEvents : Item → List Event
  | .itemFn name body => stmtsEvents (some name) body
  | .itemImpl fns => fns.flatMap fun fn => stmtsEvents (some fn.name) fn.body
  | _ => []

/-- Events of a whole file, in traversal order. -/
def fileEvents (f : File) : List Event :=
  f.flatMap itemEvents

/-- First-occurrence deduplication of an event list against a seen-set:
the kept events and the final seen-set. -/
def dedupRun (seen : List (String × String)) :
    List Event → List Event × List (String × String)
  | [] => ([], seen)
  | ev :: evs =>
      if ev.key ∈ seen then dedupRun seen evs
      else
        (ev :: (dedupRun (ev.key :: seen) evs).1, (dedupRun (ev.key :: seen) evs).2)

/-- The issue an event turns into when it is kept. -/
def Event.toIssue (e : Event) : ArithmeticIssue :=
  { operation := e.op, suggestion := e.sug, fn_name := e.fn, line := e.line }

end Arithmetic

/-! ## Symbolic overflow prover (smt.rs)

verify_addition_overflow builds a Z3 integer model with
0 <= a, b <= u64::MAX, asserts the negated safety property
a + b > u64::MAX, and calls solver.check().  The solver is an external
process; we embed the constraint systems it is given as propositions over
the integers, model the solver's verdict (z3::SatResult) as an input, and
embed the result handling of the Rust code exactly: the issue is produced
when and only when the verdict equals SatResult::Sat — both Unsat and
Unknown fall into the else branch and yield None.

run_strategy asserts 0 <= a, b, the per-strategy upper bounds, and the
same negated safety property. -/

namespace Smt

/-- z3::SatResult. -/
inductive SatResult where
  | sat
  | unsat
  | unknown
deriving DecidableEq, Repr

/-- struct SmtInvariantIssue. -/
structure SmtInvariantIssue where
  function_name : String
  description : String
  location : String
deriving DecidableEq, Repr

/-- u64::MAX. -/
def maxU64 : ℤ := 18446744073709551615

/-- enum SmtProofStrategy. -/
inductive SmtProofStrategy where
  | unconstrainedOverflow
  | boundedDomainOverflow
  | smallDomainOverflow
deriving DecidableEq, Repr

/-- The per-strategy upper bound run_strategy asserts on a and b. -/
def strategyBound : SmtProofStrategy → ℤ
  | .unconstrainedOverflow => maxU64
  | .boundedDomainOverflow => 5000000000
  | .smallDomainOverflow => 10000

/-- The constraint system run_strategy hands to the solver: non-negative
a and b below the strategy bound, together with the asserted violation
a + b > u64::MAX. -/
def strategyConstraints (s : SmtProofStrategy) (a b : ℤ) : Prop :=
  0 ≤ a ∧ 0 ≤ b ∧ a ≤ strategyBound s ∧ b ≤ strategyBound s ∧ a + b > maxU64

/-- The constraint system verify_addition_overflow hands to the solver:
0 <= a <= u64::MAX, 0 <= b <= u64::MAX, and the asserted violation
a + b > u64::MAX. -/
def verifyFormula (a b : ℤ) : Prop :=
  0 ≤ a ∧ a ≤ maxU64 ∧ 0 ≤ b ∧ b ≤ maxU64 ∧ a + b > maxU64

/-- The result handling of verify_addition_overflow: SatResult::Sat yields
the issue, every other verdict (Unsat AND Unknown) yields None. -/
def verify_addition_overflow (check : SatResult) (fn_name location : String) :
    Option SmtInvariantIssue :=
  if check = .sat then
    some { function_name := fn_name
           description := "SMT Solver (Z3) proved that this addition can overflow u64 bounds."
           location := location }
  else none

end Smt

/-! ## Concrete example inputs for the claims -/

/-- A file whose consts form two distinct collision groups (value A twice,
value B twice), used to exhibit the bucket-order sensitivity of
final_check. -/
def c9File : File :=
  [.itemConst "KEY_A1" (.str "A") 1,
   .itemConst "KEY_A2" (.str "A") 2,
   .itemConst "KEY_B1" (.str "B") 3,
   .itemConst "KEY_B2" (.str "B") 4]

/-- Modelled from the spec: "a storage mutation — a set/update/remove
method call on a RECEIVER CHAIN mentioning storage, persistent, temporary,
or instance" — the receiver chain is the method call's receiver expression,
so the words are searched in the receiver's rendering only. -/
def specReceiverMentionsStorage (receiver : Expr) : Bool :=
  AuthGap.mentionsStorageFamily (render receiver)

/-- The method call m.set(storage_key): the receiver chain is the bare
path m, which mentions none of the storage-family words; only the ARGUMENT
contains the word storage. -/
def c2SetCall : Expr :=
  .methodCall (.pathE ["m"]) "set" (.cons (.pathE ["storage_key"]) .nil) 3

/-- The failing input for C2: a public impl-block function whose only
statement is m.set(storage_key) — no get, no auth call. -/
def c2File : File :=
  [.itemImpl [{ isPub := true, name := "store_value",
                body := .cons (.exprS c2SetCall) .nil }]]

/-- The body of the repository's own CEI test function bad_transfer
(reentrancy.rs, test_cei_violation_detected):
let client = TokenClient::new(&env, &to);
client.transfer(&env.current_contract_address(), &to, &amount);
env.storage().persistent().set(&DataKey::Balance, &amount); -/
def ceiTestBody : Stmts :=
  .cons (.localS (.call (.pathE ["TokenClient", "new"])
            (.cons (.refE (.pathE ["env"])) (.cons (.refE (.pathE ["to"])) .nil)) 6))
    (.cons (.exprS (.methodCall (.pathE ["client"]) "transfer"
            (.cons (.refE (.methodCall (.pathE ["env"]) "current_contract_address" .nil 7))
              (.cons (.refE (.pathE ["to"])) (.cons (.refE (.pathE ["amount"])) .nil))) 7))
      (.cons (.exprS (.methodCall
            (.methodCall (.methodCall (.pathE ["env"]) "storage" .nil 8) "persistent" .nil 8)
            "set"
            (.cons (.refE (.pathE ["DataKey", "Balance"])) (.cons (.refE (.pathE ["amount"])) .nil))
            8))
        .nil))

/-- The failing input for C3: the impl block of the repository's own CEI
test (a cross-contract client call followed by a storage set). -/
def ceiTestFile : File :=
  [.itemImpl [{ isPub := true, name := "bad_transfer", body := ceiTestBody }]]

/-- The same function with the client call replaced by the idiom the
detector actually matches (env.invoke_contract(...)), followed by the same
storage set. -/
def ceiIdiomBody : Stmts :=
  .cons (.exprS (.methodCall (.pathE ["env"]) "invoke_contract"
            (.cons (.refE (.pathE ["to"])) .nil) 6))
    (.cons (.exprS (.methodCall
            (.methodCall (.methodCall (.pathE ["env"]) "storage" .nil 7) "persistent" .nil 7)
            "set"
            (.cons (.refE (.pathE ["DataKey", "Balance"])) (.cons (.refE (.pathE ["amount"])) .nil))
            7))
      .nil)

/-- The idiom-matching variant of the CEI example as a file. -/
def ceiIdiomFile : File :=
  [.itemImpl [{ isPub := true, name := "bad_transfer", body := ceiIdiomBody }]]

/-- The idiom-matching CEI example with the set statement moved BEFORE the
cross-contract call (the safe ordering). -/
def ceiIdiomSafeBody : Stmts :=
  .cons (.exprS (.methodCall
            (.methodCall (.methodCall (.pathE ["env"]) "storage" .nil 6) "persistent" .nil 6)
            "set"
            (.cons (.refE (.pathE ["DataKey", "Balance"])) (.cons (.refE (.pathE ["amount"])) .nil))
            6))
    (.cons (.exprS (.methodCall (.pathE ["env"]) "invoke_contract"
            (.cons (.refE (.pathE ["to"])) .nil) 7))
      .nil)

/-- The safe ordering as a file. -/
def ceiIdiomSafeFile : File :=
  [.itemImpl [{ isPub := true, name := "safe_transfer", body := ceiIdiomSafeBody }]]

/-- An issue kind is one of the three detected kinds. -/
def PanicDetection.kindsOk (i : PanicDetection.PanicIssue) : Prop :=
  i.issue_type = "panic!" ∨ i.issue_type = "unwrap" ∨ i.issue_type = "expect"

/-- The counterexample input for C10: an impl-block method whose single
unwrap occurrence sits inside a binary expression
(let y = a.unwrap() + 1;), a position the detector's recursion never
descends into. -/
def panicCexFile : File :=
  [.itemImpl [{ isPub := true, name := "read_value",
                body := .cons (.localS (.binary .add
                  (.methodCall (.pathE ["a"]) "unwrap" .nil 2)
                  (.litE (.int 1)) 2)) .nil }]]

/-- Witness input: an impl-block method with a panic! statement and two
identical unwrap calls (three findings, no deduplication). -/
def panicW1File : File :=
  [.itemImpl [{ isPub := true, name := "risky",
                body := .cons (.macS ["panic"] "\"boom\"")
                  (.cons (.exprS (.methodCall (.pathE ["a"]) "unwrap" .nil 3))
                    (.cons (.exprS (.methodCall (.pathE ["a"]) "unwrap" .nil 4)) .nil)) }]]

/-- Witness input: a top-level free function containing an unwrap (never
scanned). -/
def panicW2File : File :=
  [.itemFn "free_helper"
    (.cons (.exprS (.methodCall (.pathE ["x"]) "unwrap" .nil 2)) .nil)]

/-- Fields summing to an estimate of 25 bytes: five u32 (4 each) and one
Option of u32 (1 + 4). -/
def c6Fields25 : List Ty :=
  [.pathT "u32" .nil, .pathT "u32" .nil, .pathT "u32" .nil, .pathT "u32" .nil,
   .pathT "u32" .nil, .pathT "Option" (.cons (.pathT "u32" .nil) .nil)]

/-- C6 counterexample configuration: an odd limit 51 with strict mode on
(threshold value immaterial to the counterexample, set to 4/5). -/
def c6CexCfg : LedgerSize.Config := ⟨51, 4 / 5, true⟩

/-- C6 counterexample file: one contracttype struct of estimated size 25. -/
def c6CexFile : File := [.itemStruct true "MidStruct" c6Fields25]

/-- The claim's own concrete configuration: ledger_limit 50, default
threshold, strict mode off. -/
def c6BytesCfg : LedgerSize.Config := ⟨50, 4 / 5, false⟩

/-- The claim's own concrete file: a contracttype struct with a single
Bytes field (heuristic weight 64). -/
def c6BytesFile : File := [.itemStruct true "ExceedsLimit" [.pathT "Bytes" .nil]]

/-- The claim's first arithmetic example: fn f(a, b) -> u64 with body
a + b. -/
def c4AddFile : File :=
  [.itemFn "f" (.cons (.exprS (.binary .add (.pathE ["a"]) (.pathE ["b"]) 1)) .nil)]

/-- The claim's second arithmetic example: a + b + c in one function
(parsed left-associated: (a + b) + c). -/
def c4ChainFile : File :=
  [.itemFn "f" (.cons (.exprS (.binary .add
    (.binary .add (.pathE ["a"]) (.pathE ["b"]) 1) (.pathE ["c"]) 1)) .nil)]

/-- The claim's third arithmetic example: a.checked_add(b), a method call
rather than a binary operation. -/
def c4CheckedFile : File :=
  [.itemFn "f" (.cons (.exprS (.methodCall (.pathE ["a"]) "checked_add"
    (.cons (.pathE ["b"]) .nil) 1)) .nil)]

/-! # Claims -/

/-- C1: for every input string that does not parse as a Rust source file,
every detector entry point (auth-gap check, arithmetic-overflow check,
panic detection, ledger-size check, storage-collision scan, reentrancy
scan) returns an empty finding list and neither panics nor propagates a
parse error.  The parser adapter (syn::parse_str) yields none on a parse
failure; every entry point matches it and returns the empty list (the
functions are total, so no panic is possible). -/
theorem C1_parse_failure_yields_empty :
    AuthGap.check none = [] ∧
    Arithmetic.check none = [] ∧
    PanicDetection.check none = [] ∧
    (∀ cfg : LedgerSize.Config, LedgerSize.check cfg none = []) ∧
    (∀ order : StorageCollision.KeyMap → StorageCollision.KeyMap,
      StorageCollision.scan_storage_collisions order none = []) ∧
    Reentrancy.scan_reentrancy none = [] :=
  ⟨rfl, rfl, rfl, fun _ => rfl, fun _ => rfl, rfl⟩

/-- C7 counterexample: the claim says a solver Unknown is surfaced as
unable-to-prove and is never reported identically to proved-safe; but
verify_addition_overflow maps SatResult::Unknown and SatResult::Unsat
(proved safe) to the very same result, None. -/
theorem C7_unknown_conflated_with_safe :
    Smt.verify_addition_overflow .unknown "f" "loc" =
      Smt.verify_addition_overflow .unsat "f" "loc" ∧
    Smt.verify_addition_overflow .unknown "f" "loc" = none :=
  ⟨rfl, rfl⟩

/-- C7 (amended): verify_addition_overflow distinguishes only TWO
outcomes: SatResult::Sat yields Some issue (proved-unsafe); both
SatResult::Unsat (proved-safe) and SatResult::Unknown (solver failure or
timeout) yield None, so an unknown verdict is reported identically to
proved-safe rather than being surfaced separately. -/
theorem C7_two_outcome_surface :
    (∀ fn loc : String,
      Smt.verify_addition_overflow .sat fn loc =
        some { function_name := fn
               description := "SMT Solver (Z3) proved that this addition can overflow u64 bounds."
               location := loc }) ∧
    (∀ fn loc : String, Smt.verify_addition_overflow .unsat fn loc = none) ∧
    (∀ fn loc : String, Smt.verify_addition_overflow .unknown fn loc = none) :=
  ⟨fun _ _ => rfl, fun _ _ => rfl, fun _ _ => rfl⟩

/-- C8: under the unconstrained strategy (0 <= a, b <= u64::MAX) the
asserted violation a + b > u64::MAX is satisfiable, and any correct
decisive solver verdict therefore makes verify_addition_overflow report
the overflow as reachable; under the bounded strategies
(a, b <= 5000000000 and a, b <= 10000) the violation is unsatisfiable, so
the prover reports no overflow reachable within those bounds. -/
theorem C8_strategy_satisfiability :
    (∃ a b : ℤ, Smt.strategyConstraints .unconstrainedOverflow a b) ∧
    (¬ ∃ a b : ℤ, Smt.strategyConstraints .boundedDomainOverflow a b) ∧
    (¬ ∃ a b : ℤ, Smt.strategyConstraints .smallDomainOverflow a b) ∧
    (∀ (r : Smt.SatResult) (fn loc : String),
      (r = .sat ↔ ∃ a b : ℤ, Smt.verifyFormula a b) →
        (Smt.verify_addition_overflow r fn loc).isSome = true) := by
  refine ⟨⟨Smt.maxU64, Smt.maxU64, ?_⟩, ?_, ?_, ?_⟩
  · simp only [Smt.strategyConstraints, Smt.strategyBound, Smt.maxU64]
    norm_num
  · rintro ⟨a, b, h⟩
    simp only [Smt.strategyConstraints, Smt.strategyBound, Smt.maxU64] at h
    omega
  · rintro ⟨a, b, h⟩
    simp only [Smt.strategyConstraints, Smt.strategyBound, Smt.maxU64] at h
    omega
  · intro r fn loc hiff
    have hr : r = .sat := by
      apply hiff.mpr
      refine ⟨Smt.maxU64, Smt.maxU64, ?_⟩
      simp only [Smt.verifyFormula, Smt.maxU64]
      norm_num
    subst hr
    rfl

/-- The number of issues one bucket contributes: its size when it has more
than one occurrence, zero otherwise. -/
theorem bucketIssues_length (scope : StorageCollision.SorobanStorageType)
    (value : String) (infos : List StorageCollision.KeyInfo) :
    (StorageCollision.bucketIssues scope value infos).length =
      if 1 < infos.length then infos.length else 0 := by
  unfold StorageCollision.bucketIssues
  split
  · simp
  · simp

/-- C5: after the storage-collision detector visits a whole file, key
occurrences are grouped by (storage scope, key value); every bucket with
more than one occurrence yields exactly one finding per occurrence, each
listing the other occurrences (the location strings of all occurrences of
the bucket except the current one); a bucket of size one yields nothing;
and the same key value recorded under two different storage scopes lands
in two distinct singleton buckets and never by itself forms a collision. -/
theorem C5_collision_grouping :
    (∀ (scope : StorageCollision.SorobanStorageType) (value : String)
        (infos : List StorageCollision.KeyInfo),
        infos.length ≤ 1 → StorageCollision.bucketIssues scope value infos = []) ∧
    (∀ (scope : StorageCollision.SorobanStorageType) (value : String)
        (infos : List StorageCollision.KeyInfo),
        1 < infos.length →
        (StorageCollision.bucketIssues scope value infos).length = infos.length ∧
        ∀ i, i < infos.length →
          (StorageCollision.bucketIssues scope value infos)[i]? =
            some { key_value := value
                   key_type := (infos.getD i ⟨"", "", 0⟩).key_type ++ " (" ++ scope.as_str ++ ")"
                   location := (infos.getD i ⟨"", "", 0⟩).location ++ ":" ++
                     toString (infos.getD i ⟨"", "", 0⟩).line
                   others := (infos.enum.filter (fun p => p.1 != i)).map
                     (fun p => StorageCollision.fmtOther p.2) }) ∧
    (∀ keys : StorageCollision.KeyMap,
        (StorageCollision.final_check keys).length =
          (keys.map (fun kb => if 1 < kb.2.length then kb.2.length else 0)).sum) ∧
    (∀ (s1 s2 : StorageCollision.SorobanStorageType) (v : String)
        (i1 i2 : StorageCollision.KeyInfo), s1 ≠ s2 →
        StorageCollision.final_check
          (StorageCollision.add_key
            (StorageCollision.add_key [] (s1, v) i1) (s2, v) i2) = []) := by
  refine ⟨?_, ?_, ?_, ?_⟩
  · intro scope value infos h
    unfold StorageCollision.bucketIssues
    rw [if_neg (by omega)]
  · intro scope value infos h
    refine ⟨by rw [bucketIssues_length, if_pos h], ?_⟩
    intro i hi
    unfold StorageCollision.bucketIssues
    rw [if_pos h]
    simp [List.getElem?_range, hi]
  · intro keys
    induction keys with
    | nil => rfl
    | cons kb rest ih =>
        simp only [StorageCollision.final_check, List.flatMap_cons, List.length_append,
          List.map_cons, List.sum_cons] at *
        rw [bucketIssues_length, ih]
  · intro s1 s2 v i1 i2 hne
    have hk : ((s1, v) : StorageCollision.SorobanStorageType × String) ≠ (s2, v) :=
      fun h => hne (congrArg Prod.fst h)
    simp [StorageCollision.add_key, hk, StorageCollision.final_check,
      StorageCollision.bucketIssues]

/-- C5 witness: a two-occurrence Instance bucket for the value collision
yields two findings, the first referencing the other occurrence; a
singleton bucket yields nothing; the value dup recorded under Instance and
Persistent yields no finding. -/
theorem C5_collision_grouping_witness :
    (StorageCollision.bucketIssues .instanceScope "collision"
        [⟨"const", "KEY_A", 1⟩, ⟨"const", "KEY_B", 2⟩]).length = 2 ∧
    (StorageCollision.bucketIssues .instanceScope "collision"
        [⟨"const", "KEY_A", 1⟩, ⟨"const", "KEY_B", 2⟩])[0]? =
      some { key_value := "collision", key_type := "const (instance)"
             location := "KEY_A:1", others := ["KEY_B (line 2)"] } ∧
    StorageCollision.bucketIssues .instanceScope "solo" [⟨"const", "K", 1⟩] = [] ∧
    StorageCollision.final_check
      (StorageCollision.add_key
        (StorageCollision.add_key [] (.instanceScope, "dup") ⟨"const", "A", 1⟩)
        (.persistentScope, "dup") ⟨"const", "B", 2⟩) = [] := by
  refine ⟨?_, ?_, ?_, ?_⟩
  · exact (C5_collision_grouping.2.1 .instanceScope "collision"
      [⟨"const", "KEY_A", 1⟩, ⟨"const", "KEY_B", 2⟩] (by decide)).1
  · exact ((C5_collision_grouping.2.1 .instanceScope "collision"
      [⟨"const", "KEY_A", 1⟩, ⟨"const", "KEY_B", 2⟩] (by decide)).2 0 (by decide)).trans
      (by decide)
  · exact C5_collision_grouping.1 .instanceScope "solo" [⟨"const", "K", 1⟩] (by decide)
  · exact C5_collision_grouping.2.2.2 .instanceScope .persistentScope "dup"
      ⟨"const", "A", 1⟩ ⟨"const", "B", 2⟩ (by decide)

/-- C9 counterexample: the storage-collision findings are emitted by
iterating the accumulated occurrence HashMap, whose bucket order is
unspecified (each map instance draws a fresh random seed).  Two valid
iteration orders of the very same accumulated map — here the insertion
order and its reverse, which is a permutation of it — produce DIFFERENT
finding lists for the same parsed source, so two runs of the suite are not
guaranteed byte-identical output. -/
theorem C9_hashmap_order_counterexample :
    StorageCollision.scan_storage_collisions id (some c9File) ≠
      StorageCollision.scan_storage_collisions List.reverse (some c9File) ∧
    ∀ ks : StorageCollision.KeyMap, (List.reverse ks).Perm ks := by
  constructor
  · decide
  · exact fun ks => List.reverse_perm ks

/-- C9 (amended): the detector suite is deterministic up to the order of
storage-collision groups: for any two iteration orders of the accumulated
key map (any two permutations of the same buckets), final_check produces
permutations of the same finding list — the finding multiset, and hence
every individual finding byte for byte, is run-independent; only the
relative order of distinct (scope, value) collision groups may differ
between runs. -/
theorem C9_deterministic_up_to_group_order :
    ∀ ks1 ks2 : StorageCollision.KeyMap, ks1.Perm ks2 →
      (StorageCollision.final_check ks1).Perm (StorageCollision.final_check ks2) :=
  fun _ _ h => h.flatMap_right _

/-- C9 witness: the two iteration orders of the c9File map produce
permuted finding lists. -/
theorem C9_deterministic_up_to_group_order_witness :
    (StorageCollision.final_check (StorageCollision.visitFile c9File)).Perm
      (StorageCollision.final_check (StorageCollision.visitFile c9File).reverse) :=
  C9_deterministic_up_to_group_order _ _ (List.reverse_perm _).symm

/-- C2 (code bug): the auth-gap mutation test renders the WHOLE method
call (followed by the literal tokens . receiver) instead of the receiver
chain, because quote!(#m.receiver) interpolates m — the entire
ExprMethodCall — and appends . receiver as raw tokens.  Consequently the
function store_value, whose only statement is m.set(storage_key), is
flagged: the word storage occurs in the ARGUMENT, while the receiver chain
is the bare path m and mentions none of the storage-family words, so under
the claim (and the spec's receiver-chain reading) the function must not be
flagged. -/
theorem C2_receiver_render_code_bug :
    AuthGap.check (some c2File) = [AuthGap.violation "store_value"] ∧
    specReceiverMentionsStorage (.pathE ["m"]) = false ∧
    AuthGap.receiverStr c2SetCall = "m . set ( storage_key ) . receiver" := by
  refine ⟨by decide, by decide, by decide⟩

/-- C3 (code bug): the reentrancy scanner classifies a call as
cross-contract only by its CALLEE NAME (invoke_contract,
try_invoke_contract, call, try_call, a name ending in _client, or starting
with invoke).  The repository's own unit test (reentrancy.rs,
test_cei_violation_detected) builds a client with TokenClient::new and
calls client.transfer — callee names new and transfer, which match no
idiom — so the scanner returns NO finding on the very input its test
asserts to be flagged.  With an idiom-matching cross call
(env.invoke_contract) followed by storage().persistent().set(...) the
function IS flagged once, and moving the set before the cross call removes
the flag. -/
theorem C3_cross_call_idioms_code_bug :
    Reentrancy.scan_reentrancy (some ceiTestFile) = [] ∧
    Reentrancy.isCrossCall "new" = false ∧
    Reentrancy.isCrossCall "transfer" = false ∧
    Reentrancy.scan_reentrancy (some ceiIdiomFile) =
      [{ function_name := "bad_transfer"
         issue_type := "CEI violation: storage mutation after cross-contract call"
         location := "fn bad_transfer" }] ∧
    Reentrancy.scan_reentrancy (some ceiIdiomSafeFile) = [] := by
  refine ⟨by decide, by decide, by decide, by decide, by decide⟩

mutual

/-- The detector emits exactly one issue per traversed occurrence:
statement-list version. -/
theorem panic_len_stmts (fnName : String) : ∀ ss : Stmts,
    (PanicDetection.check_fn_panics fnName ss).length = PanicDetection.countStmts ss
  | .nil => rfl
  | .cons s rest => by
      simp only [PanicDetection.check_fn_panics, PanicDetection.countStmts,
        List.length_append, panic_len_stmt fnName s, panic_len_stmts fnName rest]

/-- Statement version. -/
theorem panic_len_stmt (fnName : String) : ∀ s : Stmt,
    (PanicDetection.stmt_panics fnName s).length = PanicDetection.countStmt s
  | .exprS e => panic_len_expr fnName e
  | .localS init => panic_len_expr fnName init
  | .macS segs toks => by
      simp only [PanicDetection.stmt_panics, PanicDetection.countStmt]
      split <;> rfl
  | .localNoInitS => rfl
  | .otherS => rfl

/-- Expression version. -/
theorem panic_len_expr (fnName : String) : ∀ e : Expr,
    (PanicDetection.check_expr_panics fnName e).length = PanicDetection.countExpr e
  | .macE segs toks ln => by
      simp only [PanicDetection.check_expr_panics, PanicDetection.countExpr]
      split <;> rfl
  | .methodCall recv name args ln => by
      simp only [PanicDetection.check_expr_panics, PanicDetection.countExpr,
        List.length_append, panic_len_expr fnName recv, panic_len_args fnName args]
      split <;> rfl
  | .call func args ln => panic_len_args fnName args
  | .blockE b => panic_len_stmts fnName b
  | .iteE cond thenB elseE => by
      simp only [PanicDetection.check_expr_panics, PanicDetection.countExpr,
        List.length_append, panic_len_expr fnName cond, panic_len_stmts fnName thenB,
        panic_len_expr fnName elseE]
  | .ifE cond thenB => by
      simp only [PanicDetection.check_expr_panics, PanicDetection.countExpr,
        List.length_append, panic_len_expr fnName cond, panic_len_stmts fnName thenB]
  | .matchE scrut arms => by
      simp only [PanicDetection.check_expr_panics, PanicDetection.countExpr,
        List.length_append, panic_len_expr fnName scrut, panic_len_args fnName arms]
  | .litE _ => rfl
  | .pathE _ => rfl
  | .binary _ _ _ _ => rfl
  | .refE _ => rfl
  | .parenE _ => rfl
  | .otherE => rfl

/-- Argument-list version. -/
theorem panic_len_args (fnName : String) : ∀ args : ExprList,
    (PanicDetection.args_panics fnName args).length = PanicDetection.countArgs args
  | .nil => rfl
  | .cons e rest => by
      simp only [PanicDetection.args_panics, PanicDetection.countArgs,
        List.length_append, panic_len_expr fnName e, panic_len_args fnName rest]

end

mutual

/-- Every emitted issue has one of the three detected kinds:
statement-list version. -/
theorem panic_kinds_stmts (fnName : String) : ∀ ss : Stmts,
    ∀ i ∈ PanicDetection.check_fn_panics fnName ss, PanicDetection.kindsOk i
  | .nil => by intro i hi; simp [PanicDetection.check_fn_panics] at hi
  | .cons s rest => by
      intro i hi
      simp only [PanicDetection.check_fn_panics, List.mem_append] at hi
      rcases hi with h | h
      · exact panic_kinds_stmt fnName s i h
      · exact panic_kinds_stmts fnName rest i h

/-- Statement version. -/
theorem panic_kinds_stmt (fnName : String) : ∀ s : Stmt,
    ∀ i ∈ PanicDetection.stmt_panics fnName s, PanicDetection.kindsOk i
  | .exprS e => panic_kinds_expr fnName e
  | .localS init => panic_kinds_expr fnName init
  | .macS segs toks => by
      intro i hi
      simp only [PanicDetection.stmt_panics] at hi
      split at hi
      · simp only [List.mem_singleton] at hi
        subst hi
        exact Or.inl rfl
      · simp at hi
  | .localNoInitS => by intro i hi; simp [PanicDetection.stmt_panics] at hi
  | .otherS => by intro i hi; simp [PanicDetection.stmt_panics] at hi

/-- Expression version. -/
theorem panic_kinds_expr (fnName : String) : ∀ e : Expr,
    ∀ i ∈ PanicDetection.check_expr_panics fnName e, PanicDetection.kindsOk i
  | .macE segs toks ln => by
      intro i hi
      simp only [PanicDetection.check_expr_panics] at hi
      split at hi
      · simp only [List.mem_singleton] at hi
        subst hi
        exact Or.inl rfl
      · simp at hi
  | .methodCall recv name args ln => by
      intro i hi
      simp only [PanicDetection.check_expr_panics, List.mem_append] at hi
      rcases hi with (h | h) | h
      · split at h
        next hcond =>
          simp only [List.mem_singleton] at h
          subst h
          simp only [Bool.or_eq_true, beq_iff_eq] at hcond
          rcases hcond with h1 | h1
          · exact Or.inr (Or.inl h1)
          · exact Or.inr (Or.inr h1)
        next => simp at h
      · exact panic_kinds_expr fnName recv i h
      · exact panic_kinds_args fnName args i h
  | .call func args ln => by
      intro i hi
      exact panic_kinds_args fnName args i hi
  | .blockE b => panic_kinds_stmts fnName b
  | .iteE cond thenB elseE => by
      intro i hi
      simp only [PanicDetection.check_expr_panics, List.mem_append] at hi
      rcases hi with (h | h) | h
      · exact panic_kinds_expr fnName cond i h
      · exact panic_kinds_stmts fnName thenB i h
      · exact panic_kinds_expr fnName elseE i h
  | .ifE cond thenB => by
      intro i hi
      simp only [PanicDetection.check_expr_panics, List.mem_append] at hi
      rcases hi with h | h
      · exact panic_kinds_expr fnName cond i h
      · exact panic_kinds_stmts fnName thenB i h
  | .matchE scrut arms => by
      intro i hi
      simp only [PanicDetection.check_expr_panics, List.mem_append] at hi
      rcases hi with h | h
      · exact panic_kinds_expr fnName scrut i h
      · exact panic_kinds_args fnName arms i h
  | .litE _ => by intro i hi; simp [PanicDetection.check_expr_panics] at hi
  | .pathE _ => by intro i hi; simp [PanicDetection.check_expr_panics] at hi
  | .binary _ _ _ _ => by intro i hi; simp [PanicDetection.check_expr_panics] at hi
  | .refE _ => by intro i hi; simp [PanicDetection.check_expr_panics] at hi
  | .parenE _ => by intro i hi; simp [PanicDetection.check_expr_panics] at hi
  | .otherE => by intro i hi; simp [PanicDetection.check_expr_panics] at hi

/-- Argument-list version. -/
theorem panic_kinds_args (fnName : String) : ∀ args : ExprList,
    ∀ i ∈ PanicDetection.args_panics fnName args, PanicDetection.kindsOk i
  | .nil => by intro i hi; simp [PanicDetection.args_panics] at hi
  | .cons e rest => by
      intro i hi
      simp only [PanicDetection.args_panics, List.mem_append] at hi
      rcases hi with h | h
      · exact panic_kinds_expr fnName e i h
      · exact panic_kinds_args fnName rest i h

end

/-- The collected issue count of a file equals the traversed occurrence
count. -/
theorem panic_collect_length (f : File) :
    (PanicDetection.collectIssues f).length = PanicDetection.countFile f := by
  induction f with
  | nil => rfl
  | cons item rest ih =>
      simp only [PanicDetection.collectIssues, PanicDetection.countFile,
        List.flatMap_cons, List.length_append, List.map_cons, List.sum_cons] at *
      rw [ih]
      congr 1
      cases item with
      | itemImpl fns =>
          induction fns with
          | nil => rfl
          | cons fn fnsRest ihf =>
              simp only [List.flatMap_cons, List.length_append, List.map_cons,
                List.sum_cons, panic_len_stmts fn.name fn.body] at *
              rw [ihf]
      | itemFn name body => rfl
      | itemConst name v ln => rfl
      | itemStruct c n fs => rfl
      | itemEnum c n vs => rfl
      | itemOther => rfl

/-- A file with no impl item produces no panic issues. -/
theorem panic_no_impl (f : File)
    (h : f.all (fun item => !PanicDetection.isImplItem item) = true) :
    PanicDetection.collectIssues f = [] := by
  induction f with
  | nil => rfl
  | cons item rest ih =>
      simp only [List.all_cons, Bool.and_eq_true, Bool.not_eq_true'] at h
      simp only [PanicDetection.collectIssues, List.flatMap_cons] at *
      rw [ih h.2]
      cases item with
      | itemImpl fns => simp [PanicDetection.isImplItem] at h
      | itemFn name body => rfl
      | itemConst name v ln => rfl
      | itemStruct c n fs => rfl
      | itemEnum c n vs => rfl
      | itemOther => rfl

/-- C10 counterexample: the claim says every panic!/unwrap/expect
occurrence inside an impl-block method yields its own finding; but an
unwrap occurrence inside a binary expression (let y = a.unwrap() + 1;) is
in a position the recursion of check_expr_panics never descends into
(Expr::Binary falls through its wildcard arm), so the impl-block method
read_value containing exactly one such occurrence yields zero findings. -/
theorem C10_untraversed_occurrence_counterexample :
    PanicDetection.check (some panicCexFile) = [] ∧
    PanicDetection.allCountFile panicCexFile = 1 :=
  ⟨by decide, by decide⟩

/-- C10 (amended): the panic/unwrap detector scans only impl-block
methods, and inside them emits exactly one finding per occurrence found in
the positions its recursion traverses (statement expressions, local
initializers, statement-level macros, method-call receivers and arguments,
call arguments, nested blocks, if conditions and branches, match
scrutinees and arms) with no deduplication; each finding carries one of
the kinds panic!, unwrap, expect; a file without impl items yields no
finding (free functions are never scanned). -/
theorem C10_panic_scan_traversed_occurrences (f : File) :
    (PanicDetection.checkFile f).length = PanicDetection.countFile f ∧
    (∀ i ∈ PanicDetection.collectIssues f, PanicDetection.kindsOk i) ∧
    (f.all (fun item => !PanicDetection.isImplItem item) = true →
      PanicDetection.checkFile f = []) := by
  refine ⟨?_, ?_, ?_⟩
  · rw [PanicDetection.checkFile, List.length_map]
    exact panic_collect_length f
  · intro i hi
    simp only [PanicDetection.collectIssues, List.mem_flatMap] at hi
    obtain ⟨item, hitem, hmem⟩ := hi
    cases item with
    | itemImpl fns =>
        simp only [List.mem_flatMap] at hmem
        obtain ⟨fn, hfn, hmem2⟩ := hmem
        exact panic_kinds_stmts fn.name fn.body i hmem2
    | itemFn name body => simp at hmem
    | itemConst name v ln => simp at hmem
    | itemStruct c n fs => simp at hmem
    | itemEnum c n vs => simp at hmem
    | itemOther => simp at hmem
  · intro h
    rw [PanicDetection.checkFile, panic_no_impl f h]
    rfl

/-- C10 witness: the risky method with a panic! statement and two
identical unwrap calls yields exactly three findings (no deduplication),
the first of a detected kind; a file whose only item is a free function
containing an unwrap yields no finding. -/
theorem C10_panic_scan_traversed_occurrences_witness :
    (PanicDetection.checkFile panicW1File).length = 3 ∧
    PanicDetection.kindsOk { function_name := "risky", issue_type := "panic!",
                             location := "risky" } ∧
    PanicDetection.checkFile panicW2File = [] := by
  refine ⟨?_, ?_, ?_⟩
  · exact (C10_panic_scan_traversed_occurrences panicW1File).1.trans (by decide)
  · exact (C10_panic_scan_traversed_occurrences panicW1File).2.1
      { function_name := "risky", issue_type := "panic!", location := "risky" }
      (by decide)
  · exact (C10_panic_scan_traversed_occurrences panicW2File).2.2 (by decide)

/-- classify_size yields ExceedsLimit when the size reaches the limit, or
strict mode is on and it reaches the strict threshold. -/
theorem classify_size_exceeds (cfg : LedgerSize.Config) (size st : Nat)
    (h : size ≥ cfg.ledger_limit ∨ (cfg.strict_mode ∧ size ≥ st)) :
    LedgerSize.classify_size cfg size st = some .exceedsLimit := by
  unfold LedgerSize.classify_size
  rw [if_pos h]

/-- classify_size yields ApproachingLimit when below the ExceedsLimit
condition but at or above limit times threshold. -/
theorem classify_size_approaching (cfg : LedgerSize.Config) (size st : Nat)
    (h1 : ¬ (size ≥ cfg.ledger_limit ∨ (cfg.strict_mode ∧ size ≥ st)))
    (h2 : (size : ℚ) ≥ (cfg.ledger_limit : ℚ) * cfg.approaching_threshold) :
    LedgerSize.classify_size cfg size st = some .approachingLimit := by
  unfold LedgerSize.classify_size
  rw [if_neg h1, if_pos h2]

/-- classify_size yields nothing below both thresholds. -/
theorem classify_size_none (cfg : LedgerSize.Config) (size st : Nat)
    (h1 : ¬ (size ≥ cfg.ledger_limit ∨ (cfg.strict_mode ∧ size ≥ st)))
    (h2 : ¬ ((size : ℚ) ≥ (cfg.ledger_limit : ℚ) * cfg.approaching_threshold)) :
    LedgerSize.classify_size cfg size st = none := by
  unfold LedgerSize.classify_size
  rw [if_neg h1, if_neg h2]

/-- C6 counterexample: with strict mode on, the code compares the size
against (ledger_limit as f64 * 0.5) as usize — the INTEGER half, rounded
down.  At ledger_limit 51, a struct of estimated size 25 is therefore
classified ExceedsLimit (25 ≥ ⌊51/2⌋ = 25) and one Error finding is
emitted, although 25 is strictly below half the limit (25.5), below
limit × approaching_threshold, and below the limit — so the claim, which
conditions the ExceedsLimit finding on "at or above half the limit",
predicts no finding at all. -/
theorem C6_strict_half_rounding_counterexample :
    LedgerSize.check c6CexCfg (some c6CexFile) =
      [LedgerSize.violation c6CexCfg "Struct" "MidStruct" 25 .exceedsLimit] ∧
    LedgerSize.estimate_struct_size c6Fields25 = 25 ∧
    ¬ ((25 : ℚ) ≥ (51 : ℚ) / 2) ∧
    ¬ ((25 : ℚ) ≥ (51 : ℚ) * (4 / 5)) ∧
    (25 : ℕ) < 51 := by
  refine ⟨?_, by decide, by norm_num, by norm_num, by decide⟩
  show LedgerSize.checkFile c6CexCfg c6CexFile = _
  have hsize : LedgerSize.estimate_struct_size c6Fields25 = 25 := by decide
  simp only [c6CexFile, LedgerSize.checkFile, LedgerSize.checkItem, hsize,
    classify_size_exceeds c6CexCfg 25 (c6CexCfg.ledger_limit / 2)
      (Or.inr ⟨by decide, by decide⟩), List.append_nil]

/-- C6 (amended): for every #[contracttype] struct or enum with estimated
size s, the rule emits exactly one ExceedsLimit finding with Error
severity when s is at or above ledger_limit, or when strict mode is on and
s is at or above the integer half ledger_limit / 2 (rounded down);
otherwise exactly one ApproachingLimit finding with Warning severity when
s is at or above ledger_limit × approaching_threshold; otherwise no
finding; items without the contracttype attribute yield nothing, and the
file result is the concatenation of the per-item results. -/
theorem C6_ledger_classification :
    (∀ (cfg : LedgerSize.Config) (f : File),
        LedgerSize.checkFile cfg f = f.flatMap (LedgerSize.checkItem cfg)) ∧
    (∀ (cfg : LedgerSize.Config) (name : String) (fields : List Ty),
        (LedgerSize.estimate_struct_size fields ≥ cfg.ledger_limit ∨
            (cfg.strict_mode ∧
              LedgerSize.estimate_struct_size fields ≥ cfg.ledger_limit / 2) →
          LedgerSize.checkItem cfg (.itemStruct true name fields) =
            [LedgerSize.violation cfg "Struct" name
              (LedgerSize.estimate_struct_size fields) .exceedsLimit]) ∧
        (¬ (LedgerSize.estimate_struct_size fields ≥ cfg.ledger_limit ∨
            (cfg.strict_mode ∧
              LedgerSize.estimate_struct_size fields ≥ cfg.ledger_limit / 2)) →
          ((LedgerSize.estimate_struct_size fields : ℚ) ≥
              (cfg.ledger_limit : ℚ) * cfg.approaching_threshold →
            LedgerSize.checkItem cfg (.itemStruct true name fields) =
              [LedgerSize.violation cfg "Struct" name
                (LedgerSize.estimate_struct_size fields) .approachingLimit]) ∧
          (¬ ((LedgerSize.estimate_struct_size fields : ℚ) ≥
              (cfg.ledger_limit : ℚ) * cfg.approaching_threshold) →
            LedgerSize.checkItem cfg (.itemStruct true name fields) = []))) ∧
    (∀ (cfg : LedgerSize.Config) (name : String) (variants : List (List Ty)),
        (LedgerSize.estimate_enum_size variants ≥ cfg.ledger_limit ∨
            (cfg.strict_mode ∧
              LedgerSize.estimate_enum_size variants ≥ cfg.ledger_limit / 2) →
          LedgerSize.checkItem cfg (.itemEnum true name variants) =
            [LedgerSize.violation cfg "Enum" name
              (LedgerSize.estimate_enum_size variants) .exceedsLimit]) ∧
        (¬ (LedgerSize.estimate_enum_size variants ≥ cfg.ledger_limit ∨
            (cfg.strict_mode ∧
              LedgerSize.estimate_enum_size variants ≥ cfg.ledger_limit / 2)) →
          ((LedgerSize.estimate_enum_size variants : ℚ) ≥
              (cfg.ledger_limit : ℚ) * cfg.approaching_threshold →
            LedgerSize.checkItem cfg (.itemEnum true name variants) =
              [LedgerSize.violation cfg "Enum" name
                (LedgerSize.estimate_enum_size variants) .approachingLimit]) ∧
          (¬ ((LedgerSize.estimate_enum_size variants : ℚ) ≥
              (cfg.ledger_limit : ℚ) * cfg.approaching_threshold) →
            LedgerSize.checkItem cfg (.itemEnum true name variants) = []))) ∧
    (∀ (cfg : LedgerSize.Config) (name : String) (fields : List Ty)
        (variants : List (List Ty)),
        LedgerSize.checkItem cfg (.itemStruct false name fields) = [] ∧
        LedgerSize.checkItem cfg (.itemEnum false name variants) = []) ∧
    (∀ (cfg : LedgerSize.Config) (kindWord name : String) (size : Nat),
        (LedgerSize.violation cfg kindWord name size .exceedsLimit).severity = .error ∧
        (LedgerSize.violation cfg kindWord name size .approachingLimit).severity = .warning) := by
  refine ⟨?_, ?_, ?_, ?_, ?_⟩
  · intro cfg f
    induction f with
    | nil => rfl
    | cons item rest ih =>
        simp only [LedgerSize.checkFile, List.flatMap_cons, ih]
  · intro cfg name fields
    refine ⟨fun h => ?_, fun h1 => ⟨fun h2 => ?_, fun h2 => ?_⟩⟩
    · simp only [LedgerSize.checkItem, classify_size_exceeds cfg _ _ h]
    · simp only [LedgerSize.checkItem, classify_size_approaching cfg _ _ h1 h2]
    · simp only [LedgerSize.checkItem, classify_size_none cfg _ _ h1 h2]
  · intro cfg name variants
    refine ⟨fun h => ?_, fun h1 => ⟨fun h2 => ?_, fun h2 => ?_⟩⟩
    · simp only [LedgerSize.checkItem, classify_size_exceeds cfg _ _ h]
    · simp only [LedgerSize.checkItem, classify_size_approaching cfg _ _ h1 h2]
    · simp only [LedgerSize.checkItem, classify_size_none cfg _ _ h1 h2]
  · intro cfg name fields variants
    exact ⟨rfl, rfl⟩
  · intro cfg kindWord name size
    exact ⟨rfl, rfl⟩

/-- C6 witness (the claim's own example): a contracttype struct with a
single Bytes field (weight 64) against ledger_limit 50 yields exactly one
ExceedsLimit finding with Error severity and estimated size 64. -/
theorem C6_ledger_classification_witness :
    LedgerSize.check c6BytesCfg (some c6BytesFile) =
      [LedgerSize.violation c6BytesCfg "Struct" "ExceedsLimit" 64 .exceedsLimit] ∧
    (LedgerSize.violation c6BytesCfg "Struct" "ExceedsLimit" 64 .exceedsLimit).severity =
      .error := by
  constructor
  · show LedgerSize.checkFile c6BytesCfg c6BytesFile = _
    rw [C6_ledger_classification.1 c6BytesCfg c6BytesFile]
    have h := (C6_ledger_classification.2.1 c6BytesCfg "ExceedsLimit"
      [.pathT "Bytes" .nil]).1 (Or.inl (by decide))
    simp only [c6BytesFile, List.flatMap_cons, List.flatMap_nil, List.append_nil, h]
    decide
  · exact (C6_ledger_classification.2.2.2.2 c6BytesCfg "Struct" "ExceedsLimit" 64).1

/-- dedupRun distributes over append: the second block is deduplicated
against the seen-set left by the first. -/
theorem dedupRun_append (l1 l2 : List Arithmetic.Event)
    (seen : List (String × String)) :
    Arithmetic.dedupRun seen (l1 ++ l2) =
      ((Arithmetic.dedupRun seen l1).1 ++
        (Arithmetic.dedupRun (Arithmetic.dedupRun seen l1).2 l2).1,
       (Arithmetic.dedupRun (Arithmetic.dedupRun seen l1).2 l2).2) := by
  induction l1 generalizing seen with
  | nil => simp [Arithmetic.dedupRun]
  | cons ev rest ih =>
      by_cases h : ev.key ∈ seen
      · simp [Arithmetic.dedupRun, h, ih]
      · simp [Arithmetic.dedupRun, h, ih]

/-- The pre-descent handling of a binary node equals the dedup-run of the
node's own event. -/
theorem arith_handleBinary_spec (cf : Option String) (st : Arithmetic.AState)
    (op : BinOp) (l r : Expr) (ln : Nat) :
    Arithmetic.handleBinary cf st op l r ln =
      ⟨st.issues ++ (Arithmetic.dedupRun st.seen
          (Arithmetic.nodeEvents cf op l r ln)).1.map Arithmetic.Event.toIssue,
        (Arithmetic.dedupRun st.seen (Arithmetic.nodeEvents cf op l r ln)).2⟩ := by
  cases cf with
  | none => simp [Arithmetic.handleBinary, Arithmetic.nodeEvents, Arithmetic.dedupRun]
  | some fnName =>
      unfold Arithmetic.handleBinary Arithmetic.nodeEvents
      cases hc : Arithmetic.classify_op op with
      | none => simp [Arithmetic.dedupRun]
      | some pair =>
          obtain ⟨opStr, suggestion⟩ := pair
          by_cases hs : !Arithmetic.is_string_literal l && !Arithmetic.is_string_literal r
      <;> by_cases hm : ((fnName, opStr) : String × String) ∈ st.seen
      <;> simp [hs, hm, Arithmetic.dedupRun, Arithmetic.Event.key,
            Arithmetic.Event.toIssue]

mutual

/-- The arithmetic visitor is the dedup-run of the event enumeration:
expression version. -/
theorem arith_visit_expr_spec (cf : Option String) :
    (e : Expr) → ∀ st : Arithmetic.AState,
    Arithmetic.visitExpr cf st e =
      ⟨st.issues ++ (Arithmetic.dedupRun st.seen
          (Arithmetic.exprEvents cf e)).1.map Arithmetic.Event.toIssue,
        (Arithmetic.dedupRun st.seen (Arithmetic.exprEvents cf e)).2⟩
  | .binary op l r ln => by
      intro st
      have hl := arith_visit_expr_spec cf l
      have hr := arith_visit_expr_spec cf r
      simp only [Arithmetic.visitExpr, Arithmetic.exprEvents, arith_handleBinary_spec,
        hl, hr, dedupRun_append, List.map_append, List.append_assoc]
  | .call func args ln => by
      intro st
      have hf := arith_visit_expr_spec cf func
      have ha := arith_visit_args_spec cf args
      simp only [Arithmetic.visitExpr, Arithmetic.exprEvents, hf, ha, dedupRun_append,
        List.map_append, List.append_assoc]
  | .methodCall recv name args ln => by
      intro st
      have hr := arith_visit_expr_spec cf recv
      have ha := arith_visit_args_spec cf args
      simp only [Arithmetic.visitExpr, Arithmetic.exprEvents, hr, ha, dedupRun_append,
        List.map_append, List.append_assoc]
  | .blockE b => by
      intro st
      have hb := arith_visit_stmts_spec cf b
      simp only [Arithmetic.visitExpr, Arithmetic.exprEvents, hb]
  | .iteE cond thenB elseE => by
      intro st
      have hc := arith_visit_expr_spec cf cond
      have ht := arith_visit_stmts_spec cf thenB
      have he := arith_visit_expr_spec cf elseE
      simp only [Arithmetic.visitExpr, Arithmetic.exprEvents, hc, ht, he, dedupRun_append,
        List.map_append, List.append_assoc]
  | .ifE cond thenB => by
      intro st
      have hc := arith_visit_expr_spec cf cond
      have ht := arith_visit_stmts_spec cf thenB
      simp only [Arithmetic.visitExpr, Arithmetic.exprEvents, hc, ht, dedupRun_append,
        List.map_append, List.append_assoc]
  | .matchE scrut arms => by
      intro st
      have hs := arith_visit_expr_spec cf scrut
      have ha := arith_visit_args_spec cf arms
      simp only [Arithmetic.visitExpr, Arithmetic.exprEvents, hs, ha, dedupRun_append,
        List.map_append, List.append_assoc]
  | .refE e => by
      intro st
      have he := arith_visit_expr_spec cf e
      simp only [Arithmetic.visitExpr, Arithmetic.exprEvents, he]
  | .parenE e => by
      intro st
      have he := arith_visit_expr_spec cf e
      simp only [Arithmetic.visitExpr, Arithmetic.exprEvents, he]
  | .litE _ => by
      intro st
      simp [Arithmetic.visitExpr, Arithmetic.exprEvents, Arithmetic.dedupRun]
  | .pathE _ => by
      intro st
      simp [Arithmetic.visitExpr, Arithmetic.exprEvents, Arithmetic.dedupRun]
  | .macE _ _ _ => by
      intro st
      simp [Arithmetic.visitExpr, Arithmetic.exprEvents, Arithmetic.dedupRun]
  | .otherE => by
      intro st
      simp [Arithmetic.visitExpr, Arithmetic.exprEvents, Arithmetic.dedupRun]

/-- Statement-list version. -/
theorem arith_visit_stmts_spec (cf : Option String) :
    (ss : Stmts) → ∀ st : Arithmetic.AState,
    Arithmetic.visitStmts cf st ss =
      ⟨st.issues ++ (Arithmetic.dedupRun st.seen
          (Arithmetic.stmtsEvents cf ss)).1.map Arithmetic.Event.toIssue,
        (Arithmetic.dedupRun st.seen (Arithmetic.stmtsEvents cf ss)).2⟩
  | .nil => by
      intro st
      simp [Arithmetic.visitStmts, Arithmetic.stmtsEvents, Arithmetic.dedupRun]
  | .cons s rest => by
      intro st
      have hs := arith_visit_stmt_spec cf s
      have hr := arith_visit_stmts_spec cf rest
      simp only [Arithmetic.visitStmts, Arithmetic.stmtsEvents, hs, hr, dedupRun_append,
        List.map_append, List.append_assoc]

/-- Statement version. -/
theorem arith_visit_stmt_spec (cf : Option String) :
    (s : Stmt) → ∀ st : Arithmetic.AState,
    Arithmetic.visitStmt cf st s =
      ⟨st.issues ++ (Arithmetic.dedupRun st.seen
          (Arithmetic.stmtEvents cf s)).1.map Arithmetic.Event.toIssue,
        (Arithmetic.dedupRun st.seen (Arithmetic.stmtEvents cf s)).2⟩
  | .exprS e => by
      intro st
      simp only [Arithmetic.visitStmt, Arithmetic.stmtEvents]
      exact arith_visit_expr_spec cf e st
  | .localS init => by
      intro st
      simp only [Arithmetic.visitStmt, Arithmetic.stmtEvents]
      exact arith_visit_expr_spec cf init st
  | .localNoInitS => by
      intro st
      simp [Arithmetic.visitStmt, Arithmetic.stmtEvents, Arithmetic.dedupRun]
  | .macS _ _ => by
      intro st
      simp [Arithmetic.visitStmt, Arithmetic.stmtEvents, Arithmetic.dedupRun]
  | .otherS => by
      intro st
      simp [Arithmetic.visitStmt, Arithmetic.stmtEvents, Arithmetic.dedupRun]

/-- Argument-list version. -/
theorem arith_visit_args_spec (cf : Option String) :
    (args : ExprList) → ∀ st : Arithmetic.AState,
    Arithmetic.visitArgs cf st args =
      ⟨st.issues ++ (Arithmetic.dedupRun st.seen
          (Arithmetic.argsEvents cf args)).1.map Arithmetic.Event.toIssue,
        (Arithmetic.dedupRun st.seen (Arithmetic.argsEvents cf args)).2⟩
  | .nil => by
      intro st
      simp [Arithmetic.visitArgs, Arithmetic.argsEvents, Arithmetic.dedupRun]
  | .cons e rest => by
      intro st
      have he := arith_visit_expr_spec cf e
      have hr := arith_visit_args_spec cf rest
      simp only [Arithmetic.visitArgs, Arithmetic.argsEvents, he, hr, dedupRun_append,
        List.map_append, List.append_assoc]

end

/-- Impl-function fold version of the correspondence. -/
theorem arith_visit_fns_spec (fns : List ImplFn) (st : Arithmetic.AState) :
    fns.foldl (fun s fn => Arithmetic.visitStmts (some fn.name) s fn.body) st =
      ⟨st.issues ++ (Arithmetic.dedupRun st.seen
          (fns.flatMap fun fn =>
            Arithmetic.stmtsEvents (some fn.name) fn.body)).1.map Arithmetic.Event.toIssue,
        (Arithmetic.dedupRun st.seen
          (fns.flatMap fun fn => Arithmetic.stmtsEvents (some fn.name) fn.body)).2⟩ := by
  induction fns generalizing st with
  | nil => simp [Arithmetic.dedupRun]
  | cons fn rest ih =>
      rw [List.foldl_cons]
      rw [arith_visit_stmts_spec (some fn.name) fn.body st, ih]
      simp only [List.flatMap_cons, dedupRun_append, List.map_append, List.append_assoc]

/-- Item version of the correspondence. -/
theorem arith_visit_item_spec (item : Item) (st : Arithmetic.AState) :
    Arithmetic.visitItem st item =
      ⟨st.issues ++ (Arithmetic.dedupRun st.seen
          (Arithmetic.itemEvents item)).1.map Arithmetic.Event.toIssue,
        (Arithmetic.dedupRun st.seen (Arithmetic.itemEvents item)).2⟩ := by
  cases item with
  | itemFn name body =>
      simp only [Arithmetic.visitItem, Arithmetic.itemEvents]
      exact arith_visit_stmts_spec (some name) body st
  | itemImpl fns =>
      simp only [Arithmetic.visitItem, Arithmetic.itemEvents]
      exact arith_visit_fns_spec fns st
  | itemConst name v ln => simp [Arithmetic.visitItem, Arithmetic.itemEvents,
      Arithmetic.dedupRun]
  | itemStruct c n fs => simp [Arithmetic.visitItem, Arithmetic.itemEvents,
      Arithmetic.dedupRun]
  | itemEnum c n vs => simp [Arithmetic.visitItem, Arithmetic.itemEvents,
      Arithmetic.dedupRun]
  | itemOther => simp [Arithmetic.visitItem, Arithmetic.itemEvents, Arithmetic.dedupRun]

/-- Item-fold version of the correspondence. -/
theorem arith_visit_items_spec (f : File) (st : Arithmetic.AState) :
    f.foldl Arithmetic.visitItem st =
      ⟨st.issues ++ (Arithmetic.dedupRun st.seen
          (Arithmetic.fileEvents f)).1.map Arithmetic.Event.toIssue,
        (Arithmetic.dedupRun st.seen (Arithmetic.fileEvents f)).2⟩ := by
  induction f generalizing st with
  | nil => simp [Arithmetic.fileEvents, Arithmetic.dedupRun]
  | cons item rest ih =>
      simp only [List.foldl_cons, Arithmetic.fileEvents, List.flatMap_cons,
        arith_visit_item_spec, ih, dedupRun_append, List.map_append, List.append_assoc]

/-- The issue list of the whole-file check is the first-occurrence
dedup-run of the file's qualifying events. -/
theorem arith_checkFileIssues_eq (f : File) :
    Arithmetic.checkFileIssues f =
      (Arithmetic.dedupRun [] (Arithmetic.fileEvents f)).1.map Arithmetic.Event.toIssue := by
  show (Arithmetic.visitFile f).issues = _
  rw [Arithmetic.visitFile, arith_visit_items_spec f ⟨[], []⟩]
  simp

/-- Per-key count of the dedup-run output: zero when the key is already
seen, otherwise one exactly when the event list contains the key. -/
theorem dedupRun_countP (evs : List Arithmetic.Event)
    (seen : List (String × String)) (k : String × String) :
    (Arithmetic.dedupRun seen evs).1.countP (fun e => e.key == k) =
      if k ∈ seen then 0
      else if evs.any (fun e => e.key == k) then 1 else 0 := by
  induction evs generalizing seen with
  | nil => simp [Arithmetic.dedupRun]
  | cons ev rest ih =>
      by_cases hm : ev.key ∈ seen
      · by_cases hk : k ∈ seen
        · simp [Arithmetic.dedupRun, hm, ih, hk]
        · have hne : (ev.key == k) = false :=
            beq_eq_false_iff_ne.mpr (fun h => hk (h ▸ hm))
          simp [Arithmetic.dedupRun, hm, ih, hk, List.any_cons, hne]
      · by_cases hek : ev.key = k
        · subst hek
          simp [Arithmetic.dedupRun, hm, List.countP_cons, ih, List.any_cons]
        · have hne : (ev.key == k) = false := beq_eq_false_iff_ne.mpr hek
          by_cases hk : k ∈ seen
          · simp [Arithmetic.dedupRun, hm, List.countP_cons, ih, hk, List.any_cons,
              hne, List.mem_cons, hek]
          · have hk2 : ¬ k ∈ ev.key :: seen := by
              intro h
              rcases List.mem_cons.mp h with h1 | h1
              · exact hek h1.symm
              · exact hk h1
            simp [Arithmetic.dedupRun, hm, List.countP_cons, ih, hk2, List.any_cons,
              hne, hk]

/-- Per-key first element of the dedup-run output: none when the key is
already seen, otherwise the first event of the list with that key. -/
theorem dedupRun_find (evs : List Arithmetic.Event)
    (seen : List (String × String)) (k : String × String) :
    (Arithmetic.dedupRun seen evs).1.find? (fun e => e.key == k) =
      if k ∈ seen then none else evs.find? (fun e => e.key == k) := by
  induction evs generalizing seen with
  | nil => simp [Arithmetic.dedupRun]
  | cons ev rest ih =>
      by_cases hm : ev.key ∈ seen
      · by_cases hk : k ∈ seen
        · simp [Arithmetic.dedupRun, hm, ih, hk]
        · have hne : (ev.key == k) = false :=
            beq_eq_false_iff_ne.mpr (fun h => hk (h ▸ hm))
          simp [Arithmetic.dedupRun, hm, ih, hk, List.find?_cons, hne]
      · by_cases hek : ev.key = k
        · subst hek
          simp [Arithmetic.dedupRun, hm, List.find?_cons]
        · have hne : (ev.key == k) = false := beq_eq_false_iff_ne.mpr hek
          by_cases hk : k ∈ seen
          · simp [Arithmetic.dedupRun, hm, List.find?_cons, hne, ih, hk,
              List.mem_cons, hek]
          · have hk2 : ¬ k ∈ ev.key :: seen := by
              intro h
              rcases List.mem_cons.mp h with h1 | h1
              · exact hek h1.symm
              · exact hk h1
            simp [Arithmetic.dedupRun, hm, List.find?_cons, hne, ih, hk2, hk]

/-- Every event a binary node contributes carries an (operator,
suggestion) pair produced by classify_op. -/
theorem arith_nodeEvents_sug (cf : Option String) (op : BinOp) (l r : Expr) (ln : Nat) :
    ∀ ev ∈ Arithmetic.nodeEvents cf op l r ln,
      ∃ bop, Arithmetic.classify_op bop = some (ev.op, ev.sug) := by
  intro ev hev
  unfold Arithmetic.nodeEvents at hev
  split at hev
  · simp at hev
  · split at hev
    next heq => simp at hev
    next o s heq =>
        split at hev
        · simp only [List.mem_singleton] at hev
          subst hev
          exact ⟨op, heq⟩
        · simp at hev

mutual

/-- Every event of an expression carries a classify_op pair. -/
theorem arith_events_sug_expr (cf : Option String) :
    (e : Expr) → ∀ ev ∈ Arithmetic.exprEvents cf e,
      ∃ bop, Arithmetic.classify_op bop = some (ev.op, ev.sug)
  | .binary op l r ln => by
      intro ev hev
      simp only [Arithmetic.exprEvents, List.mem_append] at hev
      rcases hev with (h | h) | h
      · exact arith_nodeEvents_sug cf op l r ln ev h
      · exact arith_events_sug_expr cf l ev h
      · exact arith_events_sug_expr cf r ev h
  | .call func args ln => by
      intro ev hev
      simp only [Arithmetic.exprEvents, List.mem_append] at hev
      rcases hev with h | h
      · exact arith_events_sug_expr cf func ev h
      · exact arith_events_sug_args cf args ev h
  | .methodCall recv name args ln => by
      intro ev hev
      simp only [Arithmetic.exprEvents, List.mem_append] at hev
      rcases hev with h | h
      · exact arith_events_sug_expr cf recv ev h
      · exact arith_events_sug_args cf args ev h
  | .blockE b => by
      intro ev hev
      exact arith_events_sug_stmts cf b ev hev
  | .iteE cond thenB elseE => by
      intro ev hev
      simp only [Arithmetic.exprEvents, List.mem_append] at hev
      rcases hev with (h | h) | h
      · exact arith_events_sug_expr cf cond ev h
      · exact arith_events_sug_stmts cf thenB ev h
      · exact arith_events_sug_expr cf elseE ev h
  | .ifE cond thenB => by
      intro ev hev
      simp only [Arithmetic.exprEvents, List.mem_append] at hev
      rcases hev with h | h
      · exact arith_events_sug_expr cf cond ev h
      · exact arith_events_sug_stmts cf thenB ev h
  | .matchE scrut arms => by
      intro ev hev
      simp only [Arithmetic.exprEvents, List.mem_append] at hev
      rcases hev with h | h
      · exact arith_events_sug_expr cf scrut ev h
      · exact arith_events_sug_args cf arms ev h
  | .refE e => by
      intro ev hev
      exact arith_events_sug_expr cf e ev hev
  | .parenE e => by
      intro ev hev
      exact arith_events_sug_expr cf e ev hev
  | .litE _ => by intro ev hev; simp [Arithmetic.exprEvents] at hev
  | .pathE _ => by intro ev hev; simp [Arithmetic.exprEvents] at hev
  | .macE _ _ _ => by intro ev hev; simp [Arithmetic.exprEvents] at hev
  | .otherE => by intro ev hev; simp [Arithmetic.exprEvents] at hev

/-- Statement-list version. -/
theorem arith_events_sug_stmts (cf : Option String) :
    (ss : Stmts) → ∀ ev ∈ Arithmetic.stmtsEvents cf ss,
      ∃ bop, Arithmetic.classify_op bop = some (ev.op, ev.sug)
  | .nil => by intro ev hev; simp [Arithmetic.stmtsEvents] at hev
  | .cons s rest => by
      intro ev hev
      simp only [Arithmetic.stmtsEvents, List.mem_append] at hev
      rcases hev with h | h
      · exact arith_events_sug_stmt cf s ev h
      · exact arith_events_sug_stmts cf rest ev h

/-- Statement version. -/
theorem arith_events_sug_stmt (cf : Option String) :
    (s : Stmt) → ∀ ev ∈ Arithmetic.stmtEvents cf s,
      ∃ bop, Arithmetic.classify_op bop = some (ev.op, ev.sug)
  | .exprS e => by
      intro ev hev
      exact arith_events_sug_expr cf e ev hev
  | .localS init => by
      intro ev hev
      exact arith_events_sug_expr cf init ev hev
  | .localNoInitS => by intro ev hev; simp [Arithmetic.stmtEvents] at hev
  | .macS _ _ => by intro ev hev; simp [Arithmetic.stmtEvents] at hev
  | .otherS => by intro ev hev; simp [Arithmetic.stmtEvents] at hev

/-- Argument-list version. -/
theorem arith_events_sug_args (cf : Option String) :
    (args : ExprList) → ∀ ev ∈ Arithmetic.argsEvents cf args,
      ∃ bop, Arithmetic.classify_op bop = some (ev.op, ev.sug)
  | .nil => by intro ev hev; simp [Arithmetic.argsEvents] at hev
  | .cons e rest => by
      intro ev hev
      simp only [Arithmetic.argsEvents, List.mem_append] at hev
      rcases hev with h | h
      · exact arith_events_sug_expr cf e ev h
      · exact arith_events_sug_args cf rest ev h

end

/-- File version of the suggestion lemma. -/
theorem arith_events_sug_file (f : File) :
    ∀ ev ∈ Arithmetic.fileEvents f,
      ∃ bop, Arithmetic.classify_op bop = some (ev.op, ev.sug) := by
  intro ev hev
  simp only [Arithmetic.fileEvents, List.mem_flatMap] at hev
  obtain ⟨item, hitem, hmem⟩ := hev
  cases item with
  | itemFn name body => exact arith_events_sug_stmts (some name) body ev hmem
  | itemImpl fns =>
      simp only [Arithmetic.itemEvents, List.mem_flatMap] at hmem
      obtain ⟨fn, hfn, h2⟩ := hmem
      exact arith_events_sug_stmts (some fn.name) fn.body ev h2
  | itemConst name v ln => simp [Arithmetic.itemEvents] at hmem
  | itemStruct c n fs => simp [Arithmetic.itemEvents] at hmem
  | itemEnum c n vs => simp [Arithmetic.itemEvents] at hmem
  | itemOther => simp [Arithmetic.itemEvents] at hmem

/-- find? over a mapped list. -/
theorem find?_map_comm {α β : Type} (g : α → β) (p : β → Bool) (l : List α) :
    (l.map g).find? p = (l.find? (fun a => p (g a))).map g := by
  induction l with
  | nil => rfl
  | cons a rest ih =>
      by_cases h : p (g a) = true
      · simp [List.find?_cons, h]
      · rw [Bool.not_eq_true] at h
        simp [List.find?_cons, h, ih]

/-- C4: for every function name and overflow-prone operator, the detector
emits exactly one finding for the (function name, operator) pair iff the
file's functions of that name contain at least one such binary operation
with no string-literal operand (counted along the visitor's traversal);
the unique finding is the first visited qualifying occurrence (same line)
and carries the operator-specific suggestion of classify_op; the three
spec examples: a + b yields exactly one "+" finding, a + b + c yields
exactly one (deduplicated to the first occurrence), and a.checked_add(b)
yields none. -/
theorem C4_arithmetic_dedup :
    (∀ (f : File) (fn op : String),
        (Arithmetic.checkFileIssues f).countP
            (fun i => (i.fn_name, i.operation) == (fn, op)) =
          if (Arithmetic.fileEvents f).any (fun ev => ev.key == (fn, op)) then 1
          else 0) ∧
    (∀ (f : File) (fn op : String),
        (Arithmetic.checkFileIssues f).find?
            (fun i => (i.fn_name, i.operation) == (fn, op)) =
          ((Arithmetic.fileEvents f).find? (fun ev => ev.key == (fn, op))).map
            Arithmetic.Event.toIssue) ∧
    (∀ f : File, ∀ ev ∈ Arithmetic.fileEvents f,
        ∃ bop, Arithmetic.classify_op bop = some (ev.op, ev.sug)) ∧
    Arithmetic.checkFileIssues c4AddFile =
      [{ operation := "+",
         suggestion := "Use .checked_add(rhs) or .saturating_add(rhs) to handle overflow",
         fn_name := "f", line := 1 }] ∧
    Arithmetic.checkFileIssues c4ChainFile =
      [{ operation := "+",
         suggestion := "Use .checked_add(rhs) or .saturating_add(rhs) to handle overflow",
         fn_name := "f", line := 1 }] ∧
    Arithmetic.check (some c4CheckedFile) = [] := by
  refine ⟨?_, ?_, arith_events_sug_file, by decide, by decide, by decide⟩
  · intro f fn op
    rw [arith_checkFileIssues_eq, List.countP_map]
    rw [show ((fun i => (i.fn_name, i.operation) == (fn, op)) ∘ Arithmetic.Event.toIssue)
      = (fun e => e.key == (fn, op)) from rfl]
    rw [dedupRun_countP]
    simp
  · intro f fn op
    rw [arith_checkFileIssues_eq, find?_map_comm]
    rw [show (fun a => ((fun i => (i.fn_name, i.operation) == (fn, op))
      (Arithmetic.Event.toIssue a))) = (fun e => e.key == (fn, op)) from rfl]
    rw [dedupRun_find]
    simp

/-- C4 witness: at the claim's first example the pair (f, +) is reported
exactly once, and the "+" suggestion is the classify_op entry. -/
theorem C4_arithmetic_dedup_witness :
    (Arithmetic.checkFileIssues c4AddFile).countP
        (fun i => (i.fn_name, i.operation) == ("f", "+")) = 1 ∧
    (∃ bop, Arithmetic.classify_op bop =
      some ("+", "Use .checked_add(rhs) or .saturating_add(rhs) to handle overflow")) := by
  constructor
  · exact (C4_arithmetic_dedup.1 c4AddFile "f" "+").trans (by decide)
  · exact C4_arithmetic_dedup.2.2.1 c4AddFile
      { fn := "f", op := "+",
        sug := "Use .checked_add(rhs) or .saturating_add(rhs) to handle overflow",
        line := 1 } (by decide)

/-- C8 witness: the unconstrained verdict of a correct solver is Sat, and
verify_addition_overflow then reports the issue. -/
theorem C8_strategy_satisfiability_witness :
    (Smt.verify_addition_overflow .sat "f" "loc").isSome = true :=
  C8_strategy_satisfiability.2.2.2 .sat "f" "loc"
    ⟨fun _ => ⟨Smt.maxU64, Smt.maxU64, by
        simp only [Smt.verifyFormula, Smt.maxU64]; norm_num⟩,
      fun _ => rfl⟩

end Sanctifier
